import Mathlib

/-!
# ods-pipeline-image: the package-image command

A shallow embedding of `cmd/package-image/steps.go` and `cmd/package-image/cmd.go`.

Conventions of the embedding.

* A Go `error` value is an `Option GoError`; `none` is the nil error.
* A `*packageImage` is a value of the context type; steps receive a context and return one.
  The pointer is never nil in the embedding (every step of `steps.go` returns the pointer it
  was given).
* Effects on the outside world (file system, registry pushes, child processes) are made
  explicit: an operation takes the world before it and returns the world after it, and the
  world keeps a trace of the operations performed.  Results of external tools are
  parameters of the embedding.
* A call on a child process that never returns has the result `none`: the child's blocking
  writes are run against the two readers and the capacity of the pipes.
* Progress output (`fmt.Printf`, `log.Printf`, `logger.Infof`) is not part of the embedding.
-/

namespace OdsImage

/-! ## Go errors -/

/-- Go error values as they are built in this command.
`plain msg` is an error without an `Unwrap` method (`errors.New`, a system call error, or
`fmt.Errorf` without the `%w` verb) whose text is `msg`; `skip text` is a
`*skipRemainingSteps` whose text is `text`, as in
`&skipRemainingSteps{"image artifact exists already"}`; `exit code` is an `*exec.ExitError`;
`wrap pre inner` is `fmt.Errorf(pre + "%w", inner)`. -/
inductive GoError where
  | plain (msg : String)
  | skip (text : String)
  | exit (code : Nat)
  | wrap (pre : String) (inner : GoError)
  deriving DecidableEq, Repr

namespace GoError

/-- The method `Error` of an error value: its text. -/
def Error : GoError → String
  | plain msg => msg
  | skip text => text
  | exit code => "exit status " ++ toString code
  | wrap pre inner => pre ++ inner.Error

/-- `errors.Unwrap`. -/
def Unwrap : GoError → Option GoError
  | wrap _ inner => some inner
  | _ => none

/-- `errors.As(err, &skip)` with `skip` of type `*skipRemainingSteps`: some error of the
`Unwrap` chain of `err` is a skip signal. -/
def asSkip : GoError → Bool
  | skip _ => true
  | wrap _ inner => inner.asSkip
  | _ => false

end GoError

/-! ## The step executor (`runSteps`) -/

/-- `type PackageStep func(d *packageImage) (*packageImage, error)`, over a context type. -/
abbrev PackageStep (σ : Type) := σ → σ × Option GoError

/-- What a run of `runSteps` did: the calls made (position of the step in the list and the
context passed to it), the context held when the run ended, and the returned error. -/
structure StepRun (σ : Type) where
  calls : List (Nat × σ)
  final : σ
  err : Option GoError

/-- The loop of `runSteps`, from position `i` of the step list. -/
def runStepsFrom {σ : Type} (i : Nat) (d : σ) : List (PackageStep σ) → StepRun σ
  | [] => { calls := [], final := d, err := none }
  | step :: rest =>
    match step d with
    | (d1, some err) =>
      if err.asSkip then { calls := [(i, d)], final := d1, err := none }
      else { calls := [(i, d)], final := d1, err := some err }
    | (d1, none) =>
      let r := runStepsFrom (i + 1) d1 rest
      { calls := (i, d) :: r.calls, final := r.final, err := r.err }

/-- `func (d *packageImage) runSteps(steps ...PackageStep) error`. -/
def runSteps {σ : Type} (d : σ) (steps : List (PackageStep σ)) : StepRun σ :=
  runStepsFrom 0 d steps

/-- The contexts handed from step to step when no step fails: the first step receives `d`,
the next one what the previous returned. -/
def handedOver {σ : Type} (d : σ) : List (PackageStep σ) → List σ
  | [] => []
  | step :: rest => d :: handedOver (step d).1 rest

/-- The context after all of `steps` ran from `d`. -/
def afterSteps {σ : Type} (d : σ) (steps : List (PackageStep σ)) : σ :=
  steps.foldl (fun c step => (step c).1) d

/-! ## Paths and the file system -/

/-- A file path, split at the separator: `rooted` tells whether it starts at the root, `elems`
are its elements.  A file name handed to `filepath.Join` is one element: the names built
here are made of an image stream name and a tag, which hold no separator. -/
structure GoPath where
  rooted : Bool
  elems : List String
  deriving DecidableEq, Repr

/-- One element of `filepath.Clean`, on the elements kept so far (innermost first): empty
elements and `.` are dropped, `..` removes the element before it, and is kept where there is
none to remove in a path that is not rooted. -/
def cleanStep (rooted : Bool) (kept : List String) (e : String) : List String :=
  if e = "" ∨ e = "." then kept
  else if e = ".." then
    match kept with
    | [] => if rooted then [] else [".."]
    | top :: below => if top = ".." then ".." :: kept else below
  else e :: kept

/-- The elements of a path after `filepath.Clean`. -/
def cleanElems (rooted : Bool) (elems : List String) : List String :=
  (elems.foldl (cleanStep rooted) []).reverse

/-- `filepath.Clean`. -/
def GoPath.clean (p : GoPath) : GoPath :=
  { rooted := p.rooted, elems := cleanElems p.rooted p.elems }

/-- `filepath.Join(a, b)`: the elements of both, cleaned.  Only an empty first argument lets
the second decide whether the result is rooted. -/
def GoPath.join (a b : GoPath) : GoPath :=
  GoPath.clean
    { rooted := a.rooted || (a.elems.isEmpty && b.rooted), elems := a.elems ++ b.elems }

/-- A file name as a path of one element. -/
def GoPath.file (name : String) : GoPath := { rooted := false, elems := [name] }

/-- `pipelinectxt.ImageDigestsPath`, the directory `.ods/artifacts/image-digests`. -/
def ImageDigestsPath : GoPath :=
  { rooted := false, elems := [".ods", "artifacts", "image-digests"] }

/-- `pipelinectxt.SBOMsPath`, the directory `.ods/artifacts/sboms`. -/
def SBOMsPath : GoPath :=
  { rooted := false, elems := [".ods", "artifacts", "sboms"] }

/-- `artifact.Image`, the record written as an image artifact. -/
structure Image where
  Ref : String
  Registry : String
  Repository : String
  Name : String
  Tag : String
  Digest : String
  deriving DecidableEq, Repr

/-- An operation on the outside world, with its arguments. -/
inductive Event where
  | stat (file : List String)
  | skopeoTag (imageStream : String) (tag : String)
  | writeJsonArtifact (image : Image) (artifactsPath : GoPath) (filename : String)
  | copyArtifact (source : String) (artifactsPath : GoPath)
  | writeFile (name : String) (content : String)
  | readCache (dir : GoPath)
  | buildahBuild
  | buildahPushTar
  | readImageDigest (dir : GoPath)
  | generateImageSBOM
  | buildahPush
  | cosign (args : List String)
  deriving DecidableEq, Repr

/-- The outside world of one run: the working directory of the process (elements of its
absolute path), the files that exist and the files whose inspection is refused (both by the
elements of their absolute path), and the operations performed so far, oldest first. -/
structure World where
  cwd : List String
  files : List (List String)
  denied : List (List String)
  trace : List Event
  deriving DecidableEq, Repr

/-- The world with one more operation on its trace. -/
def World.record (w : World) (e : Event) : World :=
  { w with trace := w.trace ++ [e] }

/-- The elements of the absolute path a path names in this world: a path that is not rooted
is taken from the working directory. -/
def World.absolute (w : World) (p : GoPath) : List String :=
  if p.rooted then cleanElems true p.elems else cleanElems true (w.cwd ++ p.elems)

/-- The path as text, for messages. -/
def GoPath.text (p : GoPath) : String :=
  (if p.rooted then "/" else "") ++ "/".intercalate p.elems

/-- The error of a system call that found no file (`syscall.ENOENT`). -/
def ENOENT : GoError := GoError.plain "no such file or directory"

/-- The error of a system call that was refused (`syscall.EACCES`). -/
def EACCES : GoError := GoError.plain "permission denied"

/-- `os.Stat(name)`, keeping only the error: nil when the file exists and can be inspected,
otherwise a path error around the system call error. -/
def osStat (w : World) (name : GoPath) : Option GoError × World :=
  let file := w.absolute name
  let err :=
    if file ∈ w.denied then some (GoError.wrap ("stat " ++ name.text ++ ": ") EACCES)
    else if file ∈ w.files then none
    else some (GoError.wrap ("stat " ++ name.text ++ ": ") ENOENT)
  (err, w.record (Event.stat file))

/-! ## The command context and its collaborators -/

/-- `pipelinectxt.ODSContext`, as far as this command reads it. -/
structure ODSContext where
  Namespace : String
  Component : String
  GitCommitSHA : String
  deriving DecidableEq, Repr

/-- The options of the command (`p.opts`), with the fields the steps read; the type is
declared in `main.go`. -/
structure Options where
  checkoutDir : GoPath
  registry : String
  tlsVerify : Bool
  extraTags : String
  imageNamespace : String
  imageStream : String
  deriving DecidableEq, Repr

/-- `image.Identity` of the package `internal/image`, with its fields. -/
structure Identity where
  ImageNamespace : String
  ImageStream : String
  GitCommitSHA : String
  deriving DecidableEq, Repr

/-- The `packageImage` record threaded through the steps, with the fields the steps read
and set; the type is declared in `main.go`. -/
structure packageImage where
  opts : Options
  parsedExtraTags : List String
  ctxt : Option ODSContext
  imageId : Identity
  imageDigest : String
  sbomFile : String
  deriving DecidableEq, Repr

/-- The collaborators and declarations the steps use that lie outside `steps.go`, `cmd.go`
and `cosign.go`: the outcome of each external operation in a given world, the helper
methods of `packageImage`, and the constants of `main.go`. -/
structure Env where
  ReadCache : World → GoPath → Except GoError ODSContext
  shlexSplit : String → Except GoError (List String)
  buildahBuild : World → Option GoError
  buildahPushTar : World → Option GoError
  getImageDigestFromFile : World → GoPath → Except GoError String
  generateImageSBOM : World → Option GoError
  buildahPush : World → Option GoError
  cosignRun : World → List String → Option GoError × String
  skopeoTag : World → String → String → Option GoError
  writeArtifactFile : World → Image → GoPath → String → Option GoError
  CopyArtifact : World → String → GoPath → Option GoError
  osWriteFile : World → String → String → Option GoError
  artifactImage : packageImage → Image
  artifactImageForTag : packageImage → String → Image
  imageNameNoSha : packageImage → String
  tektonResultsImageRefFile : String
  kindRegistry : String
  SBOMsFormat : String

/-- `pipelinectxt.WriteJsonArtifact(in, artifactsPath, filename)`: writes the record to the
file `filename` of the directory `artifactsPath`; the function is given no other directory,
so a path that is not rooted is taken from the working directory. -/
def WriteJsonArtifact (env : Env) (w : World) (image : Image) (artifactsPath : GoPath)
    (filename : String) : Option GoError × World :=
  let w1 := w.record (Event.writeJsonArtifact image artifactsPath filename)
  match env.writeArtifactFile w image artifactsPath filename with
  | some err => (some err, w1)
  | none =>
    (none, { w1 with files := w.absolute (artifactsPath.join (GoPath.file filename)) :: w1.files })

/-- The name of the marker file of an extra tag: `fmt.Sprintf("%s-%s.json", stream, tag)`. -/
def tagArtifactFilename (imageStream tag : String) : String :=
  imageStream ++ "-" ++ tag ++ ".json"

/-- `func imageTagArtifactExists(p *packageImage, tag string) error`. -/
def imageTagArtifactExists (p : packageImage) (w : World) (tag : String) :
    Option GoError × World :=
  let imageArtifactsDir := p.opts.checkoutDir.join ImageDigestsPath
  let filename := tagArtifactFilename p.imageId.ImageStream tag
  osStat w (imageArtifactsDir.join (GoPath.file filename))

/-- `func imageRef(i artifact.Image) string`. -/
def imageRef (i : Image) : String :=
  i.Registry ++ "/" ++ i.Repository ++ "/" ++ i.Name ++ "@" ++ i.Digest

/-! ## The cosign client (`cosign.go`) -/

/-- `type CosignClient struct`. -/
structure CosignClient where
  exe : String
  key : String
  deriving DecidableEq, Repr

/-- `func NewCosignClient(key string) *CosignClient`. -/
def NewCosignClient (key : String) : CosignClient := { exe := "cosign", key := key }

/-- `func (c *CosignClient) commonArgs(imageRef string) []string`. -/
def CosignClient.commonArgs (env : Env) (c : CosignClient) (ref : String) : List String :=
  let args := ["--tlog-upload=false", "--key", c.key]
  if env.kindRegistry.isPrefixOf ref then
    args ++ ["--allow-insecure-registry=true", "--allow-http-registry=true"]
  else args

/-- `func (c *CosignClient) runCmd(args ...string) error`. -/
def CosignClient.runCmd (env : Env) (_c : CosignClient) (w : World) (args : List String) :
    Option GoError × World :=
  let w1 := w.record (Event.cosign args)
  match env.cosignRun w args with
  | (some err, buf) => (some (GoError.plain ("cosign cmd: " ++ err.Error ++ " - " ++ buf)), w1)
  | (none, _) => (none, w1)

/-- `func (c *CosignClient) Sign(imageRef string) error`. -/
def CosignClient.Sign (env : Env) (c : CosignClient) (w : World) (ref : String) :
    Option GoError × World :=
  let args := ["sign"] ++ c.commonArgs env ref
  c.runCmd env w (args ++ [ref])

/-- `func (c *CosignClient) Attest(imageRef, aType, aPredicate string) error`. -/
def CosignClient.Attest (env : Env) (c : CosignClient) (w : World)
    (ref aType aPredicate : String) : Option GoError × World :=
  let args := ["attest"] ++ c.commonArgs env ref
  c.runCmd env w (args ++ ["--type", aType, "--predicate", aPredicate, ref])

/-! ## The steps (`steps.go`) -/

/-- The state a step works on: the `packageImage` record and the outside world. -/
abbrev Run := packageImage × World

/-- `func setupContext() PackageStep`. -/
def setupContext (env : Env) : PackageStep Run := fun (p, w) =>
  let w1 := w.record (Event.readCache p.opts.checkoutDir)
  match env.ReadCache w p.opts.checkoutDir with
  | Except.error err => ((p, w1), some (GoError.wrap "read cache: " err))
  | Except.ok ctxt =>
    let p1 := { p with ctxt := some ctxt }
    let p2 :=
      if "kind-registry.kind".isPrefixOf p1.opts.registry then
        { p1 with opts := { p1.opts with tlsVerify := false } }
      else p1
    ((p2, w1), none)

/-- `func setExtraTags() PackageStep`. -/
def setExtraTags (env : Env) : PackageStep Run := fun (p, w) =>
  match env.shlexSplit p.opts.extraTags with
  | Except.error err =>
    ((p, w), some (GoError.wrap ("parse extra tags (" ++ p.opts.extraTags ++ "): ") err))
  | Except.ok extraTagsSpecified => (({ p with parsedExtraTags := extraTagsSpecified }, w), none)

/-- `func buildImageAndGenerateTar() PackageStep`. -/
def buildImageAndGenerateTar (env : Env) : PackageStep Run := fun (p, w) =>
  let w1 := w.record Event.buildahBuild
  match env.buildahBuild w with
  | some err => ((p, w1), some (GoError.wrap "buildah bud: " err))
  | none =>
    let w2 := w1.record Event.buildahPushTar
    match env.buildahPushTar w1 with
    | some err => ((p, w2), some (GoError.wrap "buildah push tar: " err))
    | none =>
      let w3 := w2.record (Event.readImageDigest p.opts.checkoutDir)
      match env.getImageDigestFromFile w2 p.opts.checkoutDir with
      | Except.error err => ((p, w3), some err)
      | Except.ok d => (({ p with imageDigest := d }, w3), none)

/-- `func generateSBOM() PackageStep`. -/
def generateSBOM (env : Env) : PackageStep Run := fun (p, w) =>
  let w1 := w.record Event.generateImageSBOM
  match env.generateImageSBOM w with
  | some err => ((p, w1), some (GoError.wrap "generate SBOM: " err))
  | none => ((p, w1), none)

/-- `func pushImage() PackageStep`. -/
def pushImage (env : Env) : PackageStep Run := fun (p, w) =>
  let w1 := w.record Event.buildahPush
  match env.buildahPush w with
  | some err => ((p, w1), some (GoError.wrap "buildah push: " err))
  | none => ((p, w1), none)

/-- `func signImage(cosignKey string) PackageStep`. -/
def signImage (env : Env) (cosignKey : String) : PackageStep Run := fun (p, w) =>
  if cosignKey ≠ "" then
    let i := imageRef (env.artifactImage p)
    let c := NewCosignClient cosignKey
    match c.Sign env w i with
    | (some err, w1) => ((p, w1), some (GoError.plain ("signing: " ++ err.Error)))
    | (none, w1) =>
      match c.Attest env w1 i env.SBOMsFormat p.sbomFile with
      | (some err, w2) => ((p, w2), some (GoError.plain ("attesting SBOM: " ++ err.Error)))
      | (none, w2) => ((p, w2), none)
  else ((p, w), none)

/-- `func storeArtifact() PackageStep`. -/
def storeArtifact (env : Env) : PackageStep Run := fun (p, w) =>
  let imageArtifactFilename := env.imageNameNoSha p ++ ".json"
  match WriteJsonArtifact env w (env.artifactImage p) ImageDigestsPath imageArtifactFilename with
  | (some err, w1) => ((p, w1), some err)
  | (none, w1) =>
    let w2 := w1.record (Event.copyArtifact p.sbomFile SBOMsPath)
    match env.CopyArtifact w1 p.sbomFile SBOMsPath with
    | some err => ((p, w2), some (GoError.wrap "copy SBOM report to artifacts: " err))
    | none => ((p, w2), none)

/-- `func storeResults() PackageStep`. -/
def storeResults (env : Env) : PackageStep Run := fun (p, w) =>
  let content := imageRef (env.artifactImage p)
  let err := env.osWriteFile w env.tektonResultsImageRefFile content
  ((p, w.record (Event.writeFile env.tektonResultsImageRefFile content)), err)

/-- The loop of `processExtraTags` over the tags still to process. -/
def processTags (env : Env) (p : packageImage) : World → List String → World × Option GoError
  | w, [] => (w, none)
  | w, extraTag :: rest =>
    match imageTagArtifactExists p w extraTag with
    | (none, w1) => processTags env p w1 rest
    | (some _, w1) =>
      let w2 := w1.record (Event.skopeoTag p.imageId.ImageStream extraTag)
      match env.skopeoTag w1 p.imageId.ImageStream extraTag with
      | some err => (w2, some (GoError.wrap "skopeo push failed: " err))
      | none =>
        let image := env.artifactImageForTag p extraTag
        let filename := tagArtifactFilename p.imageId.ImageStream extraTag
        match WriteJsonArtifact env w2 image ImageDigestsPath filename with
        | (some err, w3) => (w3, some err)
        | (none, w3) => processTags env p w3 rest

/-- `func processExtraTags() PackageStep`. -/
def processExtraTags (env : Env) : PackageStep Run := fun (p, w) =>
  if p.parsedExtraTags.length > 0 then
    match processTags env p w p.parsedExtraTags with
    | (w1, err) => ((p, w1), err)
  else ((p, w), none)

/-! ## Running a child process (`cmd.go`) -/

/-- A byte of a stream. -/
abbrev Byte := UInt8

/-- The line feed. -/
def LF : Byte := 10

/-- The carriage return. -/
def CR : Byte := 13

/-- A pipe from the child, as its reader sees it: the bytes it delivers and how it ends,
with `io.EOF` (`none`) or with a read error.  The bytes arrive in reads that return data
without an error; the end is reported by a read of its own, as an `os.File` does. -/
structure Stream where
  content : List Byte
  failure : Option GoError
  deriving DecidableEq, Repr

/-- `bufio.MaxScanTokenSize`, the buffer limit of a scanner made by `bufio.NewScanner`. -/
def MaxScanTokenSize : Nat := 64 * 1024

/-- `bufio.ErrTooLong`. -/
def ErrTooLong : GoError := GoError.plain "bufio.Scanner: token too long"

/-- The `dropCR` of `bufio.ScanLines`: a line loses one carriage return at its end. -/
def dropCR (line : List Byte) : List Byte :=
  if line.getLast? = some CR then line.dropLast else line

/-- The tokens that the successive calls of `Scan` return on a scanner with the split
function `bufio.ScanLines` and buffer limit `limit`, and the value of `Err` after the last
call.  `pending` holds the bytes read since the last token.  A line feed ends a token; the
buffer is full once `limit` bytes are pending without a line feed, and scanning stops with
`ErrTooLong`; at the end of the stream the pending bytes are the last token, and `Err` is nil
for `io.EOF` and the read error otherwise. -/
def scanLines (limit : Nat) (failure : Option GoError) :
    List Byte → List Byte → List (List Byte) × Option GoError
  | pending, [] => (if pending = [] then [] else [dropCR pending], failure)
  | pending, b :: rest =>
    if b = LF then
      let r := scanLines limit failure [] rest
      (dropCR pending :: r.1, r.2)
    else if limit ≤ pending.length + 1 then ([], some ErrTooLong)
    else scanLines limit failure (pending ++ [b]) rest

/-- `fmt.Fprintln(w, text)` on a sink that takes every byte: the text and a line feed. -/
def Fprintln (w : List Byte) (text : List Byte) : List Byte :=
  w ++ text ++ [LF]

/-- `func scan(rc io.ReadCloser, w io.Writer) error`: the bytes in the sink after the call,
and the returned error. -/
def scan (rc : Stream) (w : List Byte) : List Byte × Option GoError :=
  let r := scanLines MaxScanTokenSize rc.failure [] rc.content
  (r.1.foldl Fprintln w, r.2)

/-- The `%s` verb of `fmt` on an error value: its text, and the marker of a nil operand. -/
def fmtS : Option GoError → String
  | some err => err.Error
  | none => "%!s(<nil>)"

/-- What `collectOutput` leaves: both sinks and the returned error. -/
structure Collected where
  wStdout : List Byte
  wStderr : List Byte
  err : Option GoError
  deriving DecidableEq, Repr

/-- `func collectOutput(rcStdout, rcStderr io.ReadCloser, wStdout, wStderr io.Writer) error`.
The two scans share nothing (each has its own stream and sink) and the function goes on only
when both have returned, so their interleaving does not show in the result. -/
def collectOutput (rcStdout rcStderr : Stream) (wStdout wStderr : List Byte) : Collected :=
  let (out, stdoutErr) := scan rcStdout wStdout
  let (errOut, stderrErr) := scan rcStderr wStderr
  if stdoutErr ≠ none ∨ stderrErr ≠ none then
    { wStdout := out, wStderr := errOut,
      err := some (GoError.plain
        ("scan stdout = " ++ fmtS stdoutErr ++ ", scan stderr = " ++ fmtS stderrErr)) }
  else { wStdout := out, wStderr := errOut, err := none }

/-- The two output streams of a child process. -/
inductive Fd where
  | stdout
  | stderr
  deriving DecidableEq, Repr

/-- How the operating system and the child answer one invocation: the results of connecting
the two pipes and of starting the process; the writes the child makes, in order, each to
one of its two streams, after which it ends and its streams close; how the read that
follows the last byte of each stream ends, with `io.EOF` (`none`) or with a read error;
how many bytes a pipe holds unread before a write to it blocks; and the result of waiting
for the child (nil for exit status 0).  The child writes with blocking writes and does
nothing else. -/
structure Child where
  stderrPipe : Option GoError
  stdoutPipe : Option GoError
  start : Option GoError
  writes : List (Fd × List Byte)
  stdoutEnd : Option GoError
  stderrEnd : Option GoError
  pipeCapacity : Nat
  wait : Option GoError
  deriving DecidableEq, Repr

/-- The number of bytes the scanner of `scan` takes off a stream holding `input` before it
stops: all of them, unless it stops with `ErrTooLong`, which it does with its buffer full,
at the byte that fills it.  `pending` holds the bytes read since the last token. -/
def scanTakes (limit : Nat) : List Byte → List Byte → Nat
  | _, [] => 0
  | pending, b :: rest =>
    if b = LF then 1 + scanTakes limit [] rest
    else if limit ≤ pending.length + 1 then 1
    else 1 + scanTakes limit (pending ++ [b]) rest

/-- The bytes of a stream that `scan` leaves unread, of the bytes handed to the stream. -/
def unreadAfterScan (handed : List Byte) : Nat :=
  handed.length - scanTakes MaxScanTokenSize [] handed

/-- How far a child gets: whether it made all its writes and ended, and the bytes it handed
to each stream, the write it is blocked in included. -/
structure ChildProgress where
  ended : Bool
  stdout : List Byte
  stderr : List Byte
  deriving DecidableEq, Repr

/-- The child against the two scans of `collectOutput`.  A write returns when the bytes that
the scan of its stream leaves unread fit into the pipe; while a scan goes on it takes every
byte, and once it has stopped nothing reads the pipe any more, so a write that does not fit
then blocks for ever and the child never ends. -/
def runChild (capacity : Nat) : List Byte → List Byte → List (Fd × List Byte) → ChildProgress
  | out, err, [] => { ended := true, stdout := out, stderr := err }
  | out, err, (Fd.stdout, chunk) :: rest =>
    if unreadAfterScan (out ++ chunk) ≤ capacity then runChild capacity (out ++ chunk) err rest
    else { ended := false, stdout := out ++ chunk, stderr := err }
  | out, err, (Fd.stderr, chunk) :: rest =>
    if unreadAfterScan (err ++ chunk) ≤ capacity then runChild capacity out (err ++ chunk) rest
    else { ended := false, stdout := out, stderr := err ++ chunk }

/-- The calls `runCmdInDir` makes on the command. -/
inductive CmdCall where
  | StderrPipe
  | StdoutPipe
  | Start (exe : String) (args : List String) (env : List String) (dir : String)
  | collectOutput
  | Wait
  deriving DecidableEq, Repr

/-- What `runCmdInDir` leaves: its calls in order, both sinks, and the returned error. -/
structure CmdRun where
  calls : List CmdCall
  outWriter : List Byte
  errWriter : List Byte
  err : Option GoError
  deriving DecidableEq, Repr

/-- `func runCmdInDir(exe string, args []string, env []string, dir string, outWriter,
errWriter io.Writer) error`, on a child that answers as `child`; `environ` is `os.Environ()`.
The result is `none` when the call never returns.  When the child ends both streams are
read to their end or to where a scan stops, and `collectOutput` returns.  When the child
is blocked for ever in a write, a scan that has not stopped waits for ever for more bytes,
so `collectOutput` returns only if both scans have stopped; and `Wait` on a child that
never ends does not return. -/
def runCmdInDir (child : Child) (environ : List String) (exe : String) (args : List String)
    (env : List String) (dir : String) (outWriter errWriter : List Byte) : Option CmdRun :=
  match child.stderrPipe with
  | some err =>
    some { calls := [CmdCall.StderrPipe], outWriter := outWriter, errWriter := errWriter,
           err := some (GoError.wrap "connect stderr pipe: " err) }
  | none =>
    match child.stdoutPipe with
    | some err =>
      some { calls := [CmdCall.StderrPipe, CmdCall.StdoutPipe], outWriter := outWriter,
             errWriter := errWriter, err := some (GoError.wrap "connect stdout pipe: " err) }
    | none =>
      let started := [CmdCall.StderrPipe, CmdCall.StdoutPipe,
        CmdCall.Start exe args (environ ++ env) dir]
      match child.start with
      | some err =>
        some { calls := started, outWriter := outWriter, errWriter := errWriter,
               err := some (GoError.wrap "start cmd: " err) }
      | none =>
        let run := runChild child.pipeCapacity [] [] child.writes
        if run.ended then
          let c := collectOutput { content := run.stdout, failure := child.stdoutEnd }
            { content := run.stderr, failure := child.stderrEnd } outWriter errWriter
          match c.err with
          | some err =>
            some { calls := started ++ [CmdCall.collectOutput], outWriter := c.wStdout,
                   errWriter := c.wStderr, err := some (GoError.wrap "collect output: " err) }
          | none =>
            some { calls := started ++ [CmdCall.collectOutput, CmdCall.Wait],
                   outWriter := c.wStdout, errWriter := c.wStderr, err := child.wait }
        else if (scan { content := run.stdout, failure := none } outWriter).2 ≠ none ∧
            (scan { content := run.stderr, failure := none } errWriter).2 ≠ none then
          let c := collectOutput { content := run.stdout, failure := none }
            { content := run.stderr, failure := none } outWriter errWriter
          match c.err with
          | some err =>
            some { calls := started ++ [CmdCall.collectOutput], outWriter := c.wStdout,
                   errWriter := c.wStderr, err := some (GoError.wrap "collect output: " err) }
          | none => none
        else none

/-! ## Notions used to state the properties -/

/-- Every step of the list returns a nil error on the context it receives, the first one
receiving `d` and each later one what the step before it returned. -/
def succeedFrom {σ : Type} (d : σ) : List (PackageStep σ) → Prop
  | [] => True
  | step :: rest => (step d).2 = none ∧ succeedFrom (step d).1 rest

/-- Whether the steps succeed in a row can be computed. -/
instance decSucceedFrom {σ : Type} :
    (d : σ) → (steps : List (PackageStep σ)) → Decidable (succeedFrom d steps)
  | _, [] => isTrue trivial
  | d, step :: rest =>
    have := decSucceedFrom (step d).1 rest
    inferInstanceAs (Decidable ((step d).2 = none ∧ succeedFrom (step d).1 rest))

/-- The marker check of a tag finds the marker: `imageTagArtifactExists` returns nil. -/
def markerFound (p : packageImage) (w : World) (tag : String) : Bool :=
  (imageTagArtifactExists p w tag).1 = none

/-- The file the marker check of a tag inspects. -/
def checkedFile (p : packageImage) (w : World) (tag : String) : List String :=
  w.absolute ((p.opts.checkoutDir.join ImageDigestsPath).join
    (GoPath.file (tagArtifactFilename p.imageId.ImageStream tag)))

/-- The file a marker write of a tag creates. -/
def markerFile (p : packageImage) (w : World) (tag : String) : List String :=
  w.absolute (ImageDigestsPath.join (GoPath.file (tagArtifactFilename p.imageId.ImageStream tag)))

/-- The operations expected for one tag, given the markers of world `w`: the marker check
alone when the marker is found, and otherwise the check, the push, and the marker write. -/
def tagOps (env : Env) (p : packageImage) (w : World) (tag : String) : List Event :=
  if markerFound p w tag then [Event.stat (checkedFile p w tag)]
  else
    [Event.stat (checkedFile p w tag),
     Event.skopeoTag p.imageId.ImageStream tag,
     Event.writeJsonArtifact (env.artifactImageForTag p tag) ImageDigestsPath
       (tagArtifactFilename p.imageId.ImageStream tag)]

/-- The tags pushed by the operations of a trace, in order. -/
def pushedTags (ops : List Event) : List String :=
  ops.filterMap fun e =>
    match e with
    | Event.skopeoTag _ tag => some tag
    | _ => none

/-- The operations performed between world `w` and a later world `w1`. -/
def opsSince (w w1 : World) : List Event :=
  w1.trace.drop w.trace.length

/-- The pieces of a byte sequence between its line feeds. -/
def splitLF : List Byte → List (List Byte)
  | [] => [[]]
  | b :: rest =>
    if b = LF then [] :: splitLF rest
    else
      match splitLF rest with
      | [] => [[b]]
      | piece :: pieces => (b :: piece) :: pieces

/-- The lines of a stream as they stand in it: the pieces between line feeds, without the
empty piece after a final line feed (or of an empty stream). -/
def rawLines (content : List Byte) : List (List Byte) :=
  if (splitLF content).getLast? = some [] then (splitLF content).dropLast else splitLF content

/-- The lines of a stream: a line ends at a line feed, and a carriage return right before
the end of a line belongs to the end-of-line marker. -/
def streamLines (content : List Byte) : List (List Byte) :=
  (rawLines content).map dropCR

/-- The bytes the writes of a child hand to one of its streams, in order. -/
def written (fd : Fd) : List (Fd × List Byte) → List Byte
  | [] => []
  | (f, chunk) :: rest => if f = fd then chunk ++ written fd rest else written fd rest

/-- The standard output of a child as a stream: all it writes there, and how it ends. -/
def Child.stdoutStream (c : Child) : Stream :=
  { content := written Fd.stdout c.writes, failure := c.stdoutEnd }

/-- The standard error of a child as a stream: all it writes there, and how it ends. -/
def Child.stderrStream (c : Child) : Stream :=
  { content := written Fd.stderr c.writes, failure := c.stderrEnd }

/-- A stream that its drain reads to `io.EOF`: it ends without a read error and each of its
lines, a carriage return before the line feed counted, is shorter than
`bufio.MaxScanTokenSize`. -/
def drainsCleanly (s : Stream) : Prop :=
  s.failure = none ∧ ∀ line ∈ rawLines s.content, line.length < MaxScanTokenSize

/-- Whether a stream drains cleanly can be computed. -/
instance decDrainsCleanly (s : Stream) : Decidable (drainsCleanly s) :=
  inferInstanceAs (Decidable (s.failure = none ∧
    ∀ line ∈ rawLines s.content, line.length < MaxScanTokenSize))

/-- What a clean drain of a stream appends to its sink: every line and a line feed. -/
def drained (s : Stream) : List Byte :=
  (streamLines s.content).flatMap (fun line => line ++ [LF])

/-- The text `label` occurs in the characters `text`, at its start. -/
def startsWithChars : List Char → List Char → Bool
  | [], _ => true
  | _ :: _, [] => false
  | c :: label, t :: text => c == t && startsWithChars label text

/-- The text `label` occurs somewhere in the characters `text`. -/
def occursInChars (label : List Char) : List Char → Bool
  | [] => label.isEmpty
  | t :: text => startsWithChars label (t :: text) || occursInChars label text

/-- The message of an error mentions `label`. -/
def mentions (err : GoError) (label : String) : Bool :=
  occursInChars label.data err.Error.data

/-- An environment in which every external operation succeeds, for concrete runs. -/
def calmEnv : Env where
  ReadCache := fun _ _ => Except.ok { Namespace := "ns", Component := "app", GitCommitSHA := "c0ffee" }
  shlexSplit := fun s => Except.ok (s.splitOn " ")
  buildahBuild := fun _ => none
  buildahPushTar := fun _ => none
  getImageDigestFromFile := fun _ _ => Except.ok "sha256:abc"
  generateImageSBOM := fun _ => none
  buildahPush := fun _ => none
  cosignRun := fun _ _ => (none, "")
  skopeoTag := fun _ _ _ => none
  writeArtifactFile := fun _ _ _ _ => none
  CopyArtifact := fun _ _ _ => none
  osWriteFile := fun _ _ _ => none
  artifactImage := fun p =>
    { Ref := "", Registry := p.opts.registry, Repository := p.imageId.ImageNamespace,
      Name := p.imageId.ImageStream, Tag := p.imageId.GitCommitSHA, Digest := p.imageDigest }
  artifactImageForTag := fun p tag =>
    { Ref := "", Registry := p.opts.registry, Repository := p.imageId.ImageNamespace,
      Name := p.imageId.ImageStream, Tag := tag, Digest := p.imageDigest }
  imageNameNoSha := fun p => p.imageId.ImageStream
  tektonResultsImageRefFile := "/tekton/results/image-ref"
  kindRegistry := "kind-registry.kind"
  SBOMsFormat := "spdx"

/-- The environment `calmEnv` with the push of one tag failing with the given error. -/
def pushFailingEnv (tag : String) (err : GoError) : Env :=
  { calmEnv with skopeoTag := fun _ _ t => if t = tag then some err else none }

/-- The bytes of an ASCII text. -/
def asciiBytes (text : String) : List Byte :=
  text.data.map fun c => c.toNat.toUInt8

/-- A stream that delivers the given ASCII text and then ends with `io.EOF`. -/
def cleanStream (text : String) : Stream :=
  { content := asciiBytes text, failure := none }

/-- A stream that delivers the given ASCII text and then fails with a read error. -/
def brokenStream (text : String) (msg : String) : Stream :=
  { content := asciiBytes text, failure := some (GoError.plain msg) }

/-- A child whose pipes connect, that starts, makes the given writes and ends with the
given result of `Wait`; its streams end with `io.EOF` and its pipes hold 65536 bytes. -/
def sampleChild (writes : List (Fd × List Byte)) (wait : Option GoError) : Child :=
  { stderrPipe := none, stdoutPipe := none, start := none, writes := writes,
    stdoutEnd := none, stderrEnd := none, pipeCapacity := 65536, wait := wait }

/-- The environment `calmEnv` with the write of the result file failing with the given
error. -/
def resultFailingEnv (err : GoError) : Env :=
  { calmEnv with osWriteFile := fun _ _ _ => some err }

/-- A context of the command for image stream `app`, with the given checkout directory and
extra tags. -/
def sampleImage (checkoutDir : GoPath) (tags : List String) : packageImage :=
  { opts := { checkoutDir := checkoutDir, registry := "registry.example:5000", tlsVerify := true,
              extraTags := " ".intercalate tags, imageNamespace := "ns", imageStream := "app" },
    parsedExtraTags := tags,
    ctxt := some { Namespace := "ns", Component := "app", GitCommitSHA := "c0ffee" },
    imageId := { ImageNamespace := "ns", ImageStream := "app", GitCommitSHA := "c0ffee" },
    imageDigest := "sha256:abc",
    sbomFile := ".ods/tmp/sbom.spdx" }

/-- A world with working directory `/workspace/source`, the given files, nothing refused and
nothing done yet. -/
def sampleWorld (files : List (List String)) : World :=
  { cwd := ["workspace", "source"], files := files, denied := [], trace := [] }

/-- A step on a counter that adds one and succeeds. -/
def stepIncr : PackageStep Nat := fun n => (n + 1, none)

/-- A step on a counter that returns the skip signal. -/
def stepSkip : PackageStep Nat := fun n => (n, some (GoError.skip "image artifact exists already"))

/-- A step on a counter that fails with an ordinary error. -/
def stepFail : PackageStep Nat := fun n => (n, some (GoError.wrap "buildah bud: " (GoError.exit 125)))

/-- `func skipIfImageArtifactExists() PackageStep`.  The check `imageArtifactExists` is
declared in `main.go` and is a parameter here: from the context and the world it gives
the returned error and the world after the check. -/
def skipIfImageArtifactExists
    (imageArtifactExists : packageImage → World → Option GoError × World) : PackageStep Run :=
  fun (p, w) =>
    match imageArtifactExists p w with
    | (none, w1) => ((p, w1), some (GoError.skip "image artifact exists already"))
    | (some _, w1) => ((p, w1), none)

/-- A check of the image artifact for concrete runs: `os.Stat` of `<image stream>.json` in
the image digests directory of the checkout. -/
def sampleArtifactCheck (p : packageImage) (w : World) : Option GoError × World :=
  osStat w ((p.opts.checkoutDir.join ImageDigestsPath).join
    (GoPath.file (p.imageId.ImageStream ++ ".json")))

/-- A world with working directory `/workspace/source` in which the given files exist and
the inspection of each of them is refused. -/
def refusedWorld (files : List (List String)) : World :=
  { cwd := ["workspace", "source"], files := files, denied := files, trace := [] }

/-- The environment `calmEnv` on a file system that refuses what it refuses: the write of an
artifact file whose inspection is refused in the world fails with `permission denied`, as
`os.WriteFile` reports it. -/
def refusingEnv : Env :=
  { calmEnv with
    writeArtifactFile := fun w _ dir f =>
      if w.absolute (dir.join (GoPath.file f)) ∈ w.denied then
        some (GoError.wrap ("open " ++ (dir.join (GoPath.file f)).text ++ ": ") EACCES)
      else none }

/-! ## The step executor: skip, failure, success -/

theorem runStepsFrom_append_skip {σ : Type} (pre post : List (PackageStep σ))
    (sk : PackageStep σ) (i : Nat) (d : σ) (hpre : succeedFrom d pre) :
    runStepsFrom i d (pre ++ sk :: post) =
      { calls := (List.range' i pre.length).zip (handedOver d pre) ++
          (runStepsFrom (i + pre.length) (afterSteps d pre) (sk :: post)).calls,
        final := (runStepsFrom (i + pre.length) (afterSteps d pre) (sk :: post)).final,
        err := (runStepsFrom (i + pre.length) (afterSteps d pre) (sk :: post)).err } := by
  induction pre generalizing i d with
  | nil => simp [afterSteps, handedOver]
  | cons s rest ih =>
    obtain ⟨h1, h2⟩ := hpre
    have hs : s d = ((s d).1, none) := by rw [← h1]
    have := ih (i + 1) (s d).1 h2
    simp only [List.cons_append, List.length_cons, handedOver, afterSteps, List.foldl_cons]
    simp only [afterSteps] at this
    rw [runStepsFrom, hs]
    simp only [this, List.range'_succ, List.zip_cons_cons, List.cons_append]
    have e1 : i + 1 + rest.length = i + (rest.length + 1) := by omega
    rw [e1]

theorem handedOver_append_single {σ : Type} (pre : List (PackageStep σ)) (sk : PackageStep σ)
    (d : σ) : handedOver d (pre ++ [sk]) = handedOver d pre ++ [afterSteps d pre] := by
  induction pre generalizing d with
  | nil => simp [handedOver, afterSteps]
  | cons s rest ih => simp [handedOver, afterSteps, ih (s d).1]

theorem handedOver_length {σ : Type} (steps : List (PackageStep σ)) (d : σ) :
    (handedOver d steps).length = steps.length := by
  induction steps generalizing d with
  | nil => rfl
  | cons s rest ih => simp [handedOver, ih]

theorem zip_range_handedOver_append {σ : Type} (pre : List (PackageStep σ))
    (sk : PackageStep σ) (d : σ) :
    (List.range (pre.length + 1)).zip (handedOver d (pre ++ [sk])) =
      (List.range' 0 pre.length).zip (handedOver d pre) ++
        [(pre.length, afterSteps d pre)] := by
  rw [handedOver_append_single, List.range_succ, ← List.range_eq_range']
  rw [List.zip_append (by simp [handedOver_length])]
  simp

theorem runStepsFrom_all_succeed {σ : Type} (steps : List (PackageStep σ)) (i : Nat) (d : σ)
    (h : succeedFrom d steps) :
    runStepsFrom i d steps =
      { calls := (List.range' i steps.length).zip (handedOver d steps),
        final := afterSteps d steps, err := none } := by
  induction steps generalizing i d with
  | nil => simp [runStepsFrom, handedOver, afterSteps]
  | cons s rest ih =>
    obtain ⟨h1, h2⟩ := h
    have hs : s d = ((s d).1, none) := by rw [← h1]
    rw [runStepsFrom, hs]
    simp [ih (i + 1) (s d).1 h2, handedOver, afterSteps, List.range'_succ]

/-- C1: when the steps before step `sk` all return a nil error and `sk` returns an error in
which `errors.As` finds the skip signal, `runSteps` returns nil, and the calls it made are
exactly those of the steps up to and including `sk`, each on the context handed over to it:
no step after `sk` is called, whatever those steps are. -/
theorem runSteps_skip_ends_run_with_success {σ : Type} (d : σ) (pre post : List (PackageStep σ))
    (sk : PackageStep σ) (e : GoError) (hpre : succeedFrom d pre)
    (hsk : (sk (afterSteps d pre)).2 = some e) (hskip : e.asSkip = true) :
    (runSteps d (pre ++ sk :: post)).err = none ∧
    (runSteps d (pre ++ sk :: post)).calls =
      (List.range (pre.length + 1)).zip (handedOver d (pre ++ [sk])) := by
  have hs : sk (afterSteps d pre) = ((sk (afterSteps d pre)).1, some e) := by rw [← hsk]
  rw [runSteps, runStepsFrom_append_skip pre post sk 0 d hpre, zip_range_handedOver_append]
  rw [runStepsFrom, hs]
  simp [hskip]

/-- Witness for C1: an incrementing step, then the skip signal, then a failing step. -/
theorem runSteps_skip_ends_run_with_success_witness :
    (runSteps 0 ([stepIncr] ++ stepSkip :: [stepFail])).err = none ∧
    (runSteps 0 ([stepIncr] ++ stepSkip :: [stepFail])).calls =
      (List.range ([stepIncr].length + 1)).zip (handedOver 0 ([stepIncr] ++ [stepSkip])) :=
  runSteps_skip_ends_run_with_success 0 [stepIncr] [stepFail] stepSkip
    (GoError.skip "image artifact exists already") (by decide) rfl rfl

/-- C2: when the steps before step `sk` all return a nil error and `sk` returns an error `e`
in which `errors.As` finds no skip signal, `runSteps` returns `e` itself, and the calls it
made are exactly those of the steps up to and including `sk`: no step after `sk` is
called. -/
theorem runSteps_error_ends_run_with_that_error {σ : Type} (d : σ)
    (pre post : List (PackageStep σ)) (sk : PackageStep σ) (e : GoError)
    (hpre : succeedFrom d pre) (hsk : (sk (afterSteps d pre)).2 = some e)
    (hplain : e.asSkip = false) :
    (runSteps d (pre ++ sk :: post)).err = some e ∧
    (runSteps d (pre ++ sk :: post)).calls =
      (List.range (pre.length + 1)).zip (handedOver d (pre ++ [sk])) := by
  have hs : sk (afterSteps d pre) = ((sk (afterSteps d pre)).1, some e) := by rw [← hsk]
  rw [runSteps, runStepsFrom_append_skip pre post sk 0 d hpre, zip_range_handedOver_append]
  rw [runStepsFrom, hs]
  simp [hplain]

/-- Witness for C2: an incrementing step, then a failing step, then another step. -/
theorem runSteps_error_ends_run_with_that_error_witness :
    (runSteps 0 ([stepIncr] ++ stepFail :: [stepIncr])).err =
      some (GoError.wrap "buildah bud: " (GoError.exit 125)) ∧
    (runSteps 0 ([stepIncr] ++ stepFail :: [stepIncr])).calls =
      (List.range ([stepIncr].length + 1)).zip (handedOver 0 ([stepIncr] ++ [stepFail])) :=
  runSteps_error_ends_run_with_that_error 0 [stepIncr] [stepIncr] stepFail
    (GoError.wrap "buildah bud: " (GoError.exit 125)) (by decide) rfl rfl

/-- C3: when every step returns a nil error on the context it receives, `runSteps` calls
the steps once each in the order of the list, the first on the initial context and each
later one on the context the step before it returned, and returns nil; on the empty list
it returns nil without a call. -/
theorem runSteps_runs_all_in_order {σ : Type} (d : σ) (steps : List (PackageStep σ))
    (h : succeedFrom d steps) :
    (runSteps d steps).err = none ∧
    (runSteps d steps).calls = (List.range steps.length).zip (handedOver d steps) ∧
    (runSteps d steps).final = afterSteps d steps ∧
    (runSteps d ([] : List (PackageStep σ))).err = none ∧
    (runSteps d ([] : List (PackageStep σ))).calls = [] := by
  rw [runSteps, runStepsFrom_all_succeed steps 0 d h, List.range_eq_range']
  simp [runSteps, runStepsFrom]

/-- Witness for C3: three incrementing steps on a counter. -/
theorem runSteps_runs_all_in_order_witness :
    (runSteps 0 [stepIncr, stepIncr, stepIncr]).calls = [(0, 0), (1, 1), (2, 2)] ∧
    (runSteps 0 [stepIncr, stepIncr, stepIncr]).err = none :=
  have h := runSteps_runs_all_in_order 0 [stepIncr, stepIncr, stepIncr] (by decide)
  ⟨h.2.1, h.1⟩

/-! ## Extra tags: marker files and pushes -/

theorem cleanElems_append_file (r : Bool) (xs : List String) (f : String)
    (h1 : f ≠ "") (h2 : f ≠ ".") (h3 : f ≠ "..") :
    cleanElems r (xs ++ [f]) = cleanElems r xs ++ [f] := by
  simp [cleanElems, List.foldl_append, cleanStep, h1, h2, h3]

theorem tagArtifactFilename_length (s t : String) :
    (tagArtifactFilename s t).length = s.length + 1 + t.length + 5 := by
  simp only [tagArtifactFilename, String.length_append]
  rfl

theorem tagArtifactFilename_ordinary (s t : String) :
    tagArtifactFilename s t ≠ "" ∧ tagArtifactFilename s t ≠ "." ∧
      tagArtifactFilename s t ≠ ".." := by
  have h := tagArtifactFilename_length s t
  have e0 : ("" : String).length = 0 := rfl
  have e1 : (".").length = 1 := rfl
  have e2 : ("..").length = 2 := rfl
  refine ⟨?_, ?_, ?_⟩ <;> intro hc <;> rw [hc] at h <;> omega

theorem tagArtifactFilename_inj (s t1 t2 : String)
    (h : tagArtifactFilename s t1 = tagArtifactFilename s t2) : t1 = t2 := by
  have hd := congrArg String.data h
  simp only [tagArtifactFilename, String.data_append] at hd
  apply String.ext
  have h1 := List.append_cancel_right hd
  exact List.append_cancel_left h1

theorem absolute_join_file_last (w : World) (dir : GoPath) (f : String)
    (h1 : f ≠ "") (h2 : f ≠ ".") (h3 : f ≠ "..") :
    (w.absolute (dir.join (GoPath.file f))).getLast? = some f := by
  simp only [World.absolute, GoPath.join, GoPath.clean, GoPath.file]
  rw [cleanElems_append_file _ _ f h1 h2 h3]
  split
  · rw [cleanElems_append_file _ _ f h1 h2 h3]; simp
  · rw [← List.append_assoc, cleanElems_append_file _ _ f h1 h2 h3]; simp

theorem markerFile_ne_checkedFile (p : packageImage) (w : World) (t1 t2 : String)
    (h : t1 ≠ t2) : markerFile p w t1 ≠ checkedFile p w t2 := by
  intro hc
  have o1 := tagArtifactFilename_ordinary p.imageId.ImageStream t1
  have o2 := tagArtifactFilename_ordinary p.imageId.ImageStream t2
  have l1 := absolute_join_file_last w ImageDigestsPath _ o1.1 o1.2.1 o1.2.2
  have l2 := absolute_join_file_last w (p.opts.checkoutDir.join ImageDigestsPath) _
    o2.1 o2.2.1 o2.2.2
  rw [markerFile] at hc
  rw [checkedFile] at hc
  rw [hc, l2] at l1
  exact h (tagArtifactFilename_inj _ _ _ (Option.some.inj l1)).symm

theorem markerFound_eq (p : packageImage) (w : World) (tag : String) :
    markerFound p w tag =
      (decide (checkedFile p w tag ∉ w.denied) && decide (checkedFile p w tag ∈ w.files)) := by
  simp only [markerFound, imageTagArtifactExists, osStat, checkedFile]
  by_cases hd : w.absolute ((p.opts.checkoutDir.join ImageDigestsPath).join
      (GoPath.file (tagArtifactFilename p.imageId.ImageStream tag))) ∈ w.denied
  · simp [hd]
  · by_cases hf : w.absolute ((p.opts.checkoutDir.join ImageDigestsPath).join
      (GoPath.file (tagArtifactFilename p.imageId.ImageStream tag))) ∈ w.files
    · simp [hd, hf]
    · simp [hd, hf]

theorem imageTagArtifactExists_world (p : packageImage) (w : World) (tag : String) :
    (imageTagArtifactExists p w tag).2 = w.record (Event.stat (checkedFile p w tag)) := rfl

theorem checkedFile_congr (p : packageImage) (w w0 : World) (tag : String)
    (h : w.cwd = w0.cwd) : checkedFile p w tag = checkedFile p w0 tag := by
  simp [checkedFile, World.absolute, h]

theorem markerFile_congr (p : packageImage) (w w0 : World) (tag : String)
    (h : w.cwd = w0.cwd) : markerFile p w tag = markerFile p w0 tag := by
  simp [markerFile, World.absolute, h]

theorem markerFound_congr (p : packageImage) (w w0 : World) (tag : String)
    (hc : w.cwd = w0.cwd) (hd : w.denied = w0.denied)
    (hf : checkedFile p w0 tag ∈ w.files ↔ checkedFile p w0 tag ∈ w0.files) :
    markerFound p w tag = markerFound p w0 tag := by
  rw [markerFound_eq, markerFound_eq, checkedFile_congr p w w0 tag hc, hd]
  simp [hf]

theorem processTags_found (env : Env) (p : packageImage) (w : World) (t : String)
    (rest : List String) (h : markerFound p w t = true) :
    processTags env p w (t :: rest) =
      processTags env p (w.record (Event.stat (checkedFile p w t))) rest := by
  have hw := imageTagArtifactExists_world p w t
  have h1 : (imageTagArtifactExists p w t).1 = none := by simpa [markerFound] using h
  rw [processTags]
  cases hx : imageTagArtifactExists p w t with
  | mk err w1 =>
    rw [hx] at hw h1
    simp only at hw h1
    subst hw h1
    rfl

theorem processTags_absent (env : Env) (p : packageImage) (w : World) (t : String)
    (rest : List String) (h : markerFound p w t = false) :
    processTags env p w (t :: rest) =
      match env.skopeoTag (w.record (Event.stat (checkedFile p w t))) p.imageId.ImageStream t with
      | some err =>
        ((w.record (Event.stat (checkedFile p w t))).record
          (Event.skopeoTag p.imageId.ImageStream t), some (GoError.wrap "skopeo push failed: " err))
      | none =>
        match WriteJsonArtifact env
          ((w.record (Event.stat (checkedFile p w t))).record
            (Event.skopeoTag p.imageId.ImageStream t))
          (env.artifactImageForTag p t) ImageDigestsPath
          (tagArtifactFilename p.imageId.ImageStream t) with
        | (some err, w3) => (w3, some err)
        | (none, w3) => processTags env p w3 rest := by
  have hw := imageTagArtifactExists_world p w t
  have h1 : (imageTagArtifactExists p w t).1 ≠ none := by simpa [markerFound] using h
  rw [processTags]
  cases hx : imageTagArtifactExists p w t with
  | mk err w1 =>
    rw [hx] at hw h1
    simp only at hw h1
    subst hw
    cases err with
    | none => exact absurd rfl h1
    | some e => rfl
theorem processTags_all_succeed (env : Env) (p : packageImage) (w0 : World)
    (hpush : ∀ w t, env.skopeoTag w p.imageId.ImageStream t = none)
    (hwrite : ∀ w i dir f, env.writeArtifactFile w i dir f = none) :
    ∀ (tags : List String) (w : World), tags.Nodup → w.cwd = w0.cwd → w.denied = w0.denied →
      (∀ t ∈ tags, checkedFile p w0 t ∈ w.files ↔ checkedFile p w0 t ∈ w0.files) →
      processTags env p w tags =
        ({ cwd := w.cwd,
           files := ((tags.filter fun t => !markerFound p w0 t).map (markerFile p w0)).reverse
             ++ w.files,
           denied := w.denied,
           trace := w.trace ++ tags.flatMap (tagOps env p w0) }, none) := by
  intro tags
  induction tags with
  | nil => intro w _ _ _ _; simp [processTags]
  | cons t rest ih =>
    intro w hnd hc hd hf
    have hfound : markerFound p w t = markerFound p w0 t :=
      markerFound_congr p w w0 t hc hd (hf t (List.mem_cons_self _ _))
    have hck : checkedFile p w t = checkedFile p w0 t := checkedFile_congr p w w0 t hc
    obtain ⟨hnot, hnd1⟩ := List.nodup_cons.mp hnd
    cases hm : markerFound p w0 t with
    | true =>
      rw [hm] at hfound
      rw [processTags_found env p w t rest hfound, hck]
      rw [ih (w.record (Event.stat (checkedFile p w0 t))) hnd1 hc hd
        (fun t1 h1 => hf t1 (List.mem_cons_of_mem _ h1))]
      simp [World.record, tagOps, hm]
    | false =>
      rw [hm] at hfound
      rw [processTags_absent env p w t rest hfound, hck, hpush]
      simp only [WriteJsonArtifact, hwrite]
      rw [ih _ hnd1]
      · simp [World.record, tagOps, hm, World.absolute, markerFile, hc]
      · exact hc
      · exact hd
      · intro t1 h1
        have hne : t ≠ t1 := fun h => hnot (h ▸ h1)
        have hx := markerFile_ne_checkedFile p w0 t t1 hne
        have := hf t1 (List.mem_cons_of_mem _ h1)
        simp only [World.record, List.mem_cons]
        rw [← this]
        constructor
        · rintro (h | h)
          · exfalso; apply hx; rw [h, markerFile]; simp [World.absolute, hc]
          · exact h
        · intro h; exact Or.inr h
theorem pushedTags_flatMap_tagOps (env : Env) (p : packageImage) (w : World)
    (tags : List String) :
    pushedTags (tags.flatMap (tagOps env p w)) = tags.filter fun t => !markerFound p w t := by
  induction tags with
  | nil => rfl
  | cons t rest ih =>
    have hsplit : pushedTags ((t :: rest).flatMap (tagOps env p w)) =
        pushedTags (tagOps env p w t) ++ pushedTags (rest.flatMap (tagOps env p w)) := by
      simp [pushedTags, List.filterMap_append]
    rw [hsplit, ih]
    cases hm : markerFound p w t <;> simp [tagOps, hm, pushedTags, List.filter_cons]

theorem processExtraTags_eq (env : Env) (p : packageImage) (w : World) :
    processExtraTags env (p, w) =
      ((p, (processTags env p w p.parsedExtraTags).1),
        (processTags env p w p.parsedExtraTags).2) := by
  simp only [processExtraTags]
  split
  · rfl
  · next h =>
    have : p.parsedExtraTags = [] := by
      cases hp : p.parsedExtraTags with
      | nil => rfl
      | cons a l => rw [hp] at h; simp at h
    rw [this]; rfl

theorem processExtraTags_ops_all_succeed (env : Env) (p : packageImage) (w : World)
    (hnd : p.parsedExtraTags.Nodup)
    (hpush : ∀ w1 t, env.skopeoTag w1 p.imageId.ImageStream t = none)
    (hwrite : ∀ w1 i dir f, env.writeArtifactFile w1 i dir f = none) :
    opsSince w (processExtraTags env (p, w)).1.2 = p.parsedExtraTags.flatMap (tagOps env p w) := by
  rw [processExtraTags_eq, processTags_all_succeed env p w hpush hwrite p.parsedExtraTags w hnd
    rfl rfl (fun _ _ => Iff.rfl)]
  simp [opsSince]

/-- C4: for distinct extra tags, when every push and every marker write succeeds, the step
returns nil and the operations it performs are, tag after tag in input order, the marker
check alone for a tag whose marker is found, and the marker check, the push, and then the
write of the marker `<imageStream>-<tag>.json` for a tag whose marker is not found; so the
pushes are exactly the tags whose marker was not found, in input order, a tag whose marker
is found gets neither a push nor a marker write, and the marker file of every pushed tag
exists after the run. -/
theorem processExtraTags_pushes_tags_without_marker (env : Env) (p : packageImage) (w : World)
    (hnd : p.parsedExtraTags.Nodup)
    (hpush : ∀ w1 t, env.skopeoTag w1 p.imageId.ImageStream t = none)
    (hwrite : ∀ w1 i dir f, env.writeArtifactFile w1 i dir f = none) :
    (processExtraTags env (p, w)).2 = none ∧
    opsSince w (processExtraTags env (p, w)).1.2 = p.parsedExtraTags.flatMap (tagOps env p w) ∧
    pushedTags (opsSince w (processExtraTags env (p, w)).1.2) =
      p.parsedExtraTags.filter (fun t => !markerFound p w t) ∧
    (∀ t ∈ p.parsedExtraTags, markerFound p w t = true →
      Event.skopeoTag p.imageId.ImageStream t ∉ opsSince w (processExtraTags env (p, w)).1.2 ∧
      ∀ i, Event.writeJsonArtifact i ImageDigestsPath
          (tagArtifactFilename p.imageId.ImageStream t) ∉
        opsSince w (processExtraTags env (p, w)).1.2) ∧
    (∀ t ∈ p.parsedExtraTags, markerFound p w t = false →
      markerFile p w t ∈ (processExtraTags env (p, w)).1.2.files) := by
  have hrun := processTags_all_succeed env p w hpush hwrite p.parsedExtraTags w hnd rfl rfl
    (fun _ _ => Iff.rfl)
  have hops := processExtraTags_ops_all_succeed env p w hnd hpush hwrite
  refine ⟨?_, hops, ?_, ?_, ?_⟩
  · rw [processExtraTags_eq, hrun]
  · rw [hops, pushedTags_flatMap_tagOps]
  · intro t _ hfound
    rw [hops]
    constructor
    · intro hmem
      obtain ⟨t1, _, h1⟩ := List.mem_flatMap.mp hmem
      unfold tagOps at h1
      split at h1
      · simp at h1
      · next hab =>
        simp at h1
        exact hab (h1 ▸ hfound)
    · intro i hmem
      obtain ⟨t1, _, h1⟩ := List.mem_flatMap.mp hmem
      unfold tagOps at h1
      split at h1
      · simp at h1
      · next hab =>
        simp at h1
        have := tagArtifactFilename_inj _ _ _ h1.2
        exact hab (this ▸ hfound)
  · intro t ht habsent
    rw [processExtraTags_eq, hrun]
    simp only [List.mem_append, List.mem_reverse, List.mem_map, List.mem_filter]
    exact Or.inl ⟨t, ⟨ht, by simp [habsent]⟩, rfl⟩

/-- Witness for C4: tags `t1`, `t2`, `t3` with the marker of `t2` in place; the pushes are
`t1` and `t3`. -/
theorem processExtraTags_pushes_tags_without_marker_witness :
    pushedTags (opsSince
      (sampleWorld [["workspace", "source", ".ods", "artifacts", "image-digests", "app-t2.json"]])
      (processExtraTags calmEnv (sampleImage (GoPath.file ".") ["t1", "t2", "t3"],
        sampleWorld [["workspace", "source", ".ods", "artifacts", "image-digests",
          "app-t2.json"]])).1.2) = ["t1", "t3"] :=
  (processExtraTags_pushes_tags_without_marker calmEnv
    (sampleImage (GoPath.file ".") ["t1", "t2", "t3"])
    (sampleWorld [["workspace", "source", ".ods", "artifacts", "image-digests", "app-t2.json"]])
    (by decide) (fun _ _ => rfl) (fun _ _ _ _ => rfl)).2.2.1
theorem processTags_append (env : Env) (p : packageImage) (pre rest : List String) (w w1 : World)
    (h : processTags env p w pre = (w1, none)) :
    processTags env p w (pre ++ rest) = processTags env p w1 rest := by
  induction pre generalizing w with
  | nil => simp [processTags] at h; subst h; rfl
  | cons t ts ih =>
    rw [List.cons_append]
    cases hm : markerFound p w t with
    | true =>
      rw [processTags_found env p w t _ hm] at h ⊢
      exact ih _ h
    | false =>
      rw [processTags_absent env p w t _ hm] at h ⊢
      cases hp : env.skopeoTag (w.record (Event.stat (checkedFile p w t))) p.imageId.ImageStream t with
      | some err => rw [hp] at h; simp at h
      | none =>
        rw [hp] at h
        simp only at h ⊢
        cases hw : WriteJsonArtifact env
          ((w.record (Event.stat (checkedFile p w t))).record
            (Event.skopeoTag p.imageId.ImageStream t))
          (env.artifactImageForTag p t) ImageDigestsPath
          (tagArtifactFilename p.imageId.ImageStream t) with
        | mk err w3 =>
          rw [hw] at h
          cases err with
          | some e1 => simp at h
          | none => simp only at h ⊢; exact ih _ h

/-- C6: when the tags before `tj` were processed without error, leaving world `w1`, the
marker of `tj` is not found and the push of `tj` fails with `e`, the step returns the error
`skopeo push failed: ` wrapping `e`; after the state `w1` it has performed only the marker
check and the push of `tj` (no operation for a later tag, no marker write for `tj`), and
the files are those of `w1`, the markers written for earlier tags included. -/
theorem processExtraTags_push_failure_aborts (env : Env) (p : packageImage) (w w1 : World)
    (pre post : List String) (tj : String) (e : GoError)
    (htags : p.parsedExtraTags = pre ++ tj :: post)
    (hpre : processTags env p w pre = (w1, none))
    (habsent : markerFound p w1 tj = false)
    (hfail : env.skopeoTag (w1.record (Event.stat (checkedFile p w1 tj)))
      p.imageId.ImageStream tj = some e) :
    (processExtraTags env (p, w)).2 = some (GoError.wrap "skopeo push failed: " e) ∧
    (GoError.wrap "skopeo push failed: " e).Unwrap = some e ∧
    opsSince w1 (processExtraTags env (p, w)).1.2 =
      [Event.stat (checkedFile p w1 tj), Event.skopeoTag p.imageId.ImageStream tj] ∧
    (processExtraTags env (p, w)).1.2.files = w1.files ∧
    (processExtraTags env (p, w)).1.1 = p := by
  rw [processExtraTags_eq, htags, processTags_append env p pre _ w w1 hpre,
    processTags_absent env p w1 tj post habsent, hfail]
  simp [opsSince, World.record, GoError.Unwrap]

/-- Witness for C6: tags `t1`, `t2`, `t3`, no marker in place, the push of `t2` failing
with exit status 1: the marker of `t1` stays, nothing is done for `t3`. -/
theorem processExtraTags_push_failure_aborts_witness :
    (processExtraTags (pushFailingEnv "t2" (GoError.exit 1))
      (sampleImage (GoPath.file ".") ["t1", "t2", "t3"], sampleWorld [])).2 =
        some (GoError.wrap "skopeo push failed: " (GoError.exit 1)) ∧
    (processExtraTags (pushFailingEnv "t2" (GoError.exit 1))
      (sampleImage (GoPath.file ".") ["t1", "t2", "t3"], sampleWorld [])).1.2.files =
        [["workspace", "source", ".ods", "artifacts", "image-digests", "app-t1.json"]] :=
  have h := processExtraTags_push_failure_aborts (pushFailingEnv "t2" (GoError.exit 1))
    (sampleImage (GoPath.file ".") ["t1", "t2", "t3"]) (sampleWorld [])
    (processTags (pushFailingEnv "t2" (GoError.exit 1))
      (sampleImage (GoPath.file ".") ["t1", "t2", "t3"]) (sampleWorld []) ["t1"]).1
    ["t1"] ["t3"] "t2" (GoError.exit 1) rfl (by decide) (by decide) (by decide)
  ⟨h.1, h.2.2.2.1⟩
/-- When the marker check and the marker write of every tag name the same file and no file
is refused, a run in which every push and marker write succeeds leaves every marker to be
found, and a second run pushes nothing. -/
theorem processExtraTags_second_run_quiet_when_same_file (env : Env) (p : packageImage)
    (w : World) (hnd : p.parsedExtraTags.Nodup)
    (hpush : ∀ w1 t, env.skopeoTag w1 p.imageId.ImageStream t = none)
    (hwrite : ∀ w1 i dir f, env.writeArtifactFile w1 i dir f = none)
    (hsame : ∀ t ∈ p.parsedExtraTags, checkedFile p w t = markerFile p w t)
    (hden : w.denied = []) :
    (∀ t ∈ p.parsedExtraTags, markerFound p (processExtraTags env (p, w)).1.2 t = true) ∧
    pushedTags (opsSince (processExtraTags env (p, w)).1.2
      (processExtraTags env (processExtraTags env (p, w)).1).1.2) = [] := by
  have hrun := processTags_all_succeed env p w hpush hwrite p.parsedExtraTags w hnd rfl rfl
    (fun _ _ => Iff.rfl)
  have hfound : ∀ t ∈ p.parsedExtraTags,
      markerFound p (processExtraTags env (p, w)).1.2 t = true := by
    intro t ht
    rw [processExtraTags_eq, hrun, markerFound_eq]
    have hck : checkedFile p
        { cwd := w.cwd,
          files := ((p.parsedExtraTags.filter fun t => !markerFound p w t).map
            (markerFile p w)).reverse ++ w.files,
          denied := w.denied,
          trace := w.trace ++ p.parsedExtraTags.flatMap (tagOps env p w) } t =
        checkedFile p w t := checkedFile_congr p _ w t rfl
    rw [hck]
    simp only [hden, List.not_mem_nil, not_false_eq_true, decide_True, Bool.true_and,
      decide_eq_true_eq, List.mem_append, List.mem_reverse, List.mem_map, List.mem_filter]
    cases hm : markerFound p w t with
    | true =>
      rw [markerFound_eq] at hm
      simp only [Bool.and_eq_true, decide_eq_true_eq] at hm
      exact Or.inr hm.2
    | false => exact Or.inl ⟨t, ⟨ht, by simp [hm]⟩, (hsame t ht).symm⟩
  refine ⟨hfound, ?_⟩
  have h2 := processExtraTags_ops_all_succeed env p
    (processExtraTags env (p, w)).1.2 hnd hpush hwrite
  have hstate : (processExtraTags env (p, w)).1 = (p, (processExtraTags env (p, w)).1.2) := by
    rw [processExtraTags_eq]
  rw [hstate, h2, pushedTags_flatMap_tagOps]
  simp only [List.filter_eq_nil_iff]
  intro t ht
  have := hfound t ht
  rw [hstate] at this
  simp [this]

/-- C5, at a checkout directory that is not the working directory: with checkout directory
`/checkout`, working directory `/workspace/source` and the one tag `v1`, a first run
succeeds and writes the marker below the working directory, the marker check looks below
the checkout directory and does not find it, and the second run pushes `v1` again. -/
theorem processExtraTags_second_run_pushes_again :
    (processExtraTags calmEnv
      (sampleImage { rooted := true, elems := ["checkout"] } ["v1"], sampleWorld [])).2 = none ∧
    (processExtraTags calmEnv
      (sampleImage { rooted := true, elems := ["checkout"] } ["v1"], sampleWorld [])).1.2.files =
      [["workspace", "source", ".ods", "artifacts", "image-digests", "app-v1.json"]] ∧
    checkedFile (sampleImage { rooted := true, elems := ["checkout"] } ["v1"])
      (processExtraTags calmEnv
        (sampleImage { rooted := true, elems := ["checkout"] } ["v1"], sampleWorld [])).1.2 "v1" =
      ["checkout", ".ods", "artifacts", "image-digests", "app-v1.json"] ∧
    markerFound (sampleImage { rooted := true, elems := ["checkout"] } ["v1"])
      (processExtraTags calmEnv
        (sampleImage { rooted := true, elems := ["checkout"] } ["v1"], sampleWorld [])).1.2 "v1" =
      false ∧
    pushedTags (opsSince
      (processExtraTags calmEnv
        (sampleImage { rooted := true, elems := ["checkout"] } ["v1"], sampleWorld [])).1.2
      (processExtraTags calmEnv (processExtraTags calmEnv
        (sampleImage { rooted := true, elems := ["checkout"] } ["v1"], sampleWorld [])).1).1.2) =
      ["v1"] := by
  decide

/-! ## Child processes: draining the streams and waiting -/

theorem collectOutput_err (rcStdout rcStderr : Stream) (wStdout wStderr : List Byte) :
    (collectOutput rcStdout rcStderr wStdout wStderr).err =
      if (scan rcStdout wStdout).2 ≠ none ∨ (scan rcStderr wStderr).2 ≠ none then
        some (GoError.plain ("scan stdout = " ++ fmtS (scan rcStdout wStdout).2 ++
          ", scan stderr = " ++ fmtS (scan rcStderr wStderr).2))
      else none := by
  simp only [collectOutput]
  split <;> rfl

/-- C7 as stated fails: with stdout failing on a closed pipe and stderr drained cleanly,
the returned error is `scan stdout = read |0: file already closed, scan stderr = %!s(<nil>)`,
which mentions stderr, the stream that completed cleanly. -/
theorem collectOutput_names_clean_stream :
    (scan (brokenStream "building\n" "read |0: file already closed") []).2 =
      some (GoError.plain "read |0: file already closed") ∧
    (scan (cleanStream "warning\n") []).2 = none ∧
    (collectOutput (brokenStream "building\n" "read |0: file already closed")
      (cleanStream "warning\n") [] []).err =
      some (GoError.plain
        "scan stdout = read |0: file already closed, scan stderr = %!s(<nil>)") ∧
    mentions (GoError.plain
      "scan stdout = read |0: file already closed, scan stderr = %!s(<nil>)") "scan stderr"
      = true := by
  decide

/-- C7 amended: `collectOutput` returns nil when both drains return nil; when a drain
fails it returns one error whose message is `scan stdout = X, scan stderr = Y`, with both
stream labels whichever stream failed, where `X` is the text of the stdout error when
stdout failed and `Y` the text of the stderr error when stderr failed (both texts when
both failed). -/
theorem collectOutput_reports_under_both_labels (rcStdout rcStderr : Stream)
    (wStdout wStderr : List Byte) :
    ((scan rcStdout wStdout).2 = none ∧ (scan rcStderr wStderr).2 = none →
      (collectOutput rcStdout rcStderr wStdout wStderr).err = none) ∧
    ((scan rcStdout wStdout).2 ≠ none ∨ (scan rcStderr wStderr).2 ≠ none →
      ∃ x y : String,
        (collectOutput rcStdout rcStderr wStdout wStderr).err =
          some (GoError.plain ("scan stdout = " ++ x ++ ", scan stderr = " ++ y)) ∧
        (∀ e, (scan rcStdout wStdout).2 = some e → x = e.Error) ∧
        (∀ e, (scan rcStderr wStderr).2 = some e → y = e.Error)) := by
  rw [collectOutput_err]
  constructor
  · rintro ⟨h1, h2⟩
    simp [h1, h2]
  · intro h
    refine ⟨fmtS (scan rcStdout wStdout).2, fmtS (scan rcStderr wStderr).2, ?_, ?_, ?_⟩
    · rw [if_pos h]
    · intro e he; rw [he]; rfl
    · intro e he; rw [he]; rfl

/-- Witness for C7 amended: both streams fail, and both error texts are in the message. -/
theorem collectOutput_reports_under_both_labels_witness :
    ∃ x y : String,
      (collectOutput (brokenStream "" "read |0: file already closed")
        (brokenStream "" "read |1: input/output error") [] []).err =
        some (GoError.plain ("scan stdout = " ++ x ++ ", scan stderr = " ++ y)) ∧
      (∀ e, (scan (brokenStream "" "read |0: file already closed") []).2 = some e →
        x = e.Error) ∧
      (∀ e, (scan (brokenStream "" "read |1: input/output error") []).2 = some e →
        y = e.Error) :=
  (collectOutput_reports_under_both_labels (brokenStream "" "read |0: file already closed")
    (brokenStream "" "read |1: input/output error") [] []).2 (Or.inl (by decide))
theorem splitLF_ne_nil (l : List Byte) : splitLF l ≠ [] := by
  cases l with
  | nil => simp [splitLF]
  | cons b rest =>
    rw [splitLF]
    split
    · simp
    · split <;> simp

theorem splitLF_append (pending input : List Byte) (h : LF ∉ pending) :
    splitLF (pending ++ input) =
      match splitLF input with
      | [] => [pending]
      | piece :: pieces => (pending ++ piece) :: pieces := by
  induction pending with
  | nil =>
    cases hs : splitLF input with
    | nil => exact absurd hs (splitLF_ne_nil input)
    | cons piece pieces => simp [hs]
  | cons b rest ih =>
    have hb : b ≠ LF := fun hc => h (hc ▸ List.mem_cons_self _ _)
    have hrest : LF ∉ rest := fun hc => h (List.mem_cons_of_mem _ hc)
    rw [List.cons_append, splitLF, if_neg hb, ih hrest]
    cases hs : splitLF input with
    | nil => exact absurd hs (splitLF_ne_nil input)
    | cons piece pieces => simp

theorem rawLines_of_no_LF (pending : List Byte) (h : LF ∉ pending) :
    rawLines pending = if pending = [] then [] else [pending] := by
  have := splitLF_append pending [] h
  simp only [List.append_nil, splitLF] at this
  rw [rawLines, this]
  by_cases hp : pending = []
  · simp [hp]
  · simp [hp]

theorem rawLines_LF (pending rest : List Byte) (h : LF ∉ pending) :
    rawLines (pending ++ LF :: rest) = pending :: rawLines rest := by
  have hs := splitLF_append pending (LF :: rest) h
  simp only [splitLF, if_pos, List.append_nil] at hs
  have hne := splitLF_ne_nil rest
  rw [rawLines, hs, rawLines]
  cases hr : splitLF rest with
  | nil => exact absurd hr hne
  | cons x xs =>
    simp only [List.getLast?_cons_cons, List.dropLast_cons₂]
    split <;> rfl

theorem head_mem_rawLines (pending input : List Byte) (b : Byte) (h : LF ∉ pending)
    (hb : b ≠ LF) :
    ∃ piece, pending ++ b :: piece ∈ rawLines (pending ++ b :: input) := by
  have hmem : LF ∉ pending ++ [b] := by
    simp only [List.mem_append, List.mem_singleton, not_or]
    exact ⟨h, fun hc => hb hc.symm⟩
  have hs := splitLF_append (pending ++ [b]) input hmem
  have hne := splitLF_ne_nil input
  rw [List.append_assoc, List.singleton_append] at hs
  cases hr : splitLF input with
  | nil => exact absurd hr hne
  | cons x xs =>
    rw [hr] at hs
    simp only [List.append_assoc, List.singleton_append] at hs
    refine ⟨x, ?_⟩
    rw [rawLines, hs]
    cases xs with
    | nil => simp
    | cons y ys =>
      simp only [List.getLast?_cons_cons, List.dropLast_cons₂]
      split <;> simp

theorem scanLines_eq_lines (limit : Nat) (failure : Option GoError) :
    ∀ (input pending : List Byte), LF ∉ pending → pending.length < limit →
      (∀ line ∈ rawLines (pending ++ input), line.length < limit) →
      scanLines limit failure pending input =
        ((rawLines (pending ++ input)).map dropCR, failure) := by
  intro input
  induction input with
  | nil =>
    intro pending h _ _
    rw [List.append_nil, rawLines_of_no_LF pending h, scanLines]
    by_cases hp : pending = [] <;> simp [hp]
  | cons b rest ih =>
    intro pending h hlen hall
    by_cases hb : b = LF
    · subst hb
      rw [scanLines, if_pos rfl, rawLines_LF pending rest h]
      rw [rawLines_LF pending rest h] at hall
      have := ih [] (by simp) (by simp only [List.length_nil]; omega) (by
        intro line hl
        exact hall line (List.mem_cons_of_mem _ (by simpa using hl)))
      simp only [List.nil_append] at this
      simp [this]
    · obtain ⟨piece, hp⟩ := head_mem_rawLines pending rest b h hb
      have hl := hall _ hp
      simp only [List.length_append, List.length_cons] at hl
      have hnot : ¬ limit ≤ pending.length + 1 := by omega
      have hmem : LF ∉ pending ++ [b] := by
        simp only [List.mem_append, List.mem_singleton, not_or]
        exact ⟨h, fun hc => hb hc.symm⟩
      rw [scanLines, if_neg hb, if_neg hnot]
      have := ih (pending ++ [b]) hmem (by simp; omega) (by simpa using hall)
      simpa using this

theorem foldl_Fprintln (toks : List (List Byte)) (w : List Byte) :
    toks.foldl Fprintln w = w ++ toks.flatMap (fun line => line ++ [LF]) := by
  induction toks generalizing w with
  | nil => simp
  | cons t ts ih => simp [ih, Fprintln]

theorem scanLines_too_long (limit : Nat) (failure : Option GoError) (b : Byte) (hb : b ≠ LF)
    (rest : List Byte) :
    ∀ (n : Nat) (pending : List Byte), pending.length < limit → limit ≤ pending.length + n →
      scanLines limit failure pending (List.replicate n b ++ rest) = ([], some ErrTooLong) := by
  intro n
  induction n with
  | zero => intro pending h1 h2; omega
  | succ k ih =>
    intro pending h1 h2
    rw [List.replicate_succ, List.cons_append, scanLines, if_neg hb]
    by_cases hfull : limit ≤ pending.length + 1
    · rw [if_pos hfull]
    · rw [if_neg hfull]
      exact ih (pending ++ [b]) (by simp; omega) (by simp; omega)

/-- C9 as stated fails: a stream that is read without error and holds one line of 65536
bytes followed by a line feed makes `scan` return `bufio.ErrTooLong`, and nothing reaches
the sink. -/
theorem scan_long_line_fails :
    scan { content := List.replicate 65536 97 ++ [LF], failure := none } [] =
      ([], some ErrTooLong) := by
  have h := scanLines_too_long MaxScanTokenSize none 97 (by decide) [LF] 65536 []
    (by decide) (by decide)
  simp only [scan, h, List.foldl_nil]

/-- C9 amended: for a stream read without error in which every line, counted from after
the previous line feed up to its own line feed, is shorter than 65536 bytes
(`bufio.MaxScanTokenSize`), `scan` returns nil and appends to the sink every line of the
stream once, in order, each followed by one line feed; lines are as `bufio.ScanLines`
delimits them: ended by a line feed, a carriage return right before it dropped, and a
last line without line feed counted when it is not empty. -/
theorem scan_writes_every_line (content : List Byte) (w : List Byte)
    (hshort : ∀ line ∈ rawLines content, line.length < MaxScanTokenSize) :
    scan { content := content, failure := none } w =
      (w ++ (streamLines content).flatMap (fun line => line ++ [LF]), none) := by
  have h := scanLines_eq_lines MaxScanTokenSize none content [] (by simp) (by decide)
    (by simpa using hshort)
  simp only [List.nil_append] at h
  simp only [scan, h, foldl_Fprintln, streamLines]

/-- Witness for C9 amended: two lines, the first ended by carriage return and line feed,
the second without a line feed. -/
theorem scan_writes_every_line_witness :
    scan { content := asciiBytes "ab\r\ncd", failure := none } [] =
      (asciiBytes "ab\ncd\n", none) :=
  scan_writes_every_line (asciiBytes "ab\r\ncd") [] (by decide)

/-! ## Errors returned by the steps -/

/-- The failure paths of the steps that hand the error of the failed operation back as it
is: the result file write of `storeResults`, the image artifact write of `storeArtifact`,
the digest read of `buildImageAndGenerateTar`, and the marker write of `processExtraTags`
(here for a first tag whose marker is not found and whose push succeeds). -/
theorem steps_handing_back_error_unchanged (env : Env) (p : packageImage) (w : World)
    (e : GoError) :
    (env.osWriteFile w env.tektonResultsImageRefFile (imageRef (env.artifactImage p)) = some e →
      (storeResults env (p, w)).2 = some e) ∧
    (env.writeArtifactFile w (env.artifactImage p) ImageDigestsPath
        (env.imageNameNoSha p ++ ".json") = some e →
      (storeArtifact env (p, w)).2 = some e) ∧
    (env.buildahBuild w = none → env.buildahPushTar (w.record Event.buildahBuild) = none →
      env.getImageDigestFromFile ((w.record Event.buildahBuild).record Event.buildahPushTar)
        p.opts.checkoutDir = Except.error e →
      (buildImageAndGenerateTar env (p, w)).2 = some e) ∧
    (∀ t rest, p.parsedExtraTags = t :: rest → markerFound p w t = false →
      env.skopeoTag (w.record (Event.stat (checkedFile p w t))) p.imageId.ImageStream t = none →
      env.writeArtifactFile
        ((w.record (Event.stat (checkedFile p w t))).record
          (Event.skopeoTag p.imageId.ImageStream t))
        (env.artifactImageForTag p t) ImageDigestsPath
        (tagArtifactFilename p.imageId.ImageStream t) = some e →
      (processExtraTags env (p, w)).2 = some e) := by
  refine ⟨?_, ?_, ?_, ?_⟩
  · intro h; simp [storeResults, h]
  · intro h; simp [storeArtifact, WriteJsonArtifact, h]
  · intro h1 h2 h3; simp [buildImageAndGenerateTar, h1, h2, h3]
  · intro t rest ht hm hp hw
    rw [processExtraTags_eq, ht, processTags_absent env p w t rest hm, hp]
    simp [WriteJsonArtifact, hw]

/-- The failure paths of the steps that wrap the error of the failed operation under a text
of their own (`fmt.Errorf` with `%w`). -/
theorem steps_wrapping_error (env : Env) (p : packageImage) (w : World) (e : GoError) :
    (env.ReadCache w p.opts.checkoutDir = Except.error e →
      (setupContext env (p, w)).2 = some (GoError.wrap "read cache: " e)) ∧
    (env.shlexSplit p.opts.extraTags = Except.error e →
      (setExtraTags env (p, w)).2 =
        some (GoError.wrap ("parse extra tags (" ++ p.opts.extraTags ++ "): ") e)) ∧
    (env.buildahBuild w = some e →
      (buildImageAndGenerateTar env (p, w)).2 = some (GoError.wrap "buildah bud: " e)) ∧
    (env.buildahBuild w = none → env.buildahPushTar (w.record Event.buildahBuild) = some e →
      (buildImageAndGenerateTar env (p, w)).2 = some (GoError.wrap "buildah push tar: " e)) ∧
    (env.generateImageSBOM w = some e →
      (generateSBOM env (p, w)).2 = some (GoError.wrap "generate SBOM: " e)) ∧
    (env.buildahPush w = some e →
      (pushImage env (p, w)).2 = some (GoError.wrap "buildah push: " e)) := by
  refine ⟨?_, ?_, ?_, ?_, ?_, ?_⟩
  · intro h; simp [setupContext, h]
  · intro h; simp [setExtraTags, h]
  · intro h; simp [buildImageAndGenerateTar, h]
  · intro h1 h2; simp [buildImageAndGenerateTar, h1, h2]
  · intro h; simp [generateSBOM, h]
  · intro h; simp [pushImage, h]

/-- C10, at a failing write of the result file: when `os.WriteFile` fails with
`open /tekton/results/image-ref: permission denied`, the step `storeResults` returns that
very error; its text does not name the step and it wraps nothing more than the system
call error. -/
theorem storeResults_returns_write_error_unchanged :
    (storeResults (resultFailingEnv (GoError.wrap "open /tekton/results/image-ref: " EACCES))
      (sampleImage (GoPath.file ".") [], sampleWorld [])).2 =
      some (GoError.wrap "open /tekton/results/image-ref: " EACCES) ∧
    (GoError.wrap "open /tekton/results/image-ref: " EACCES).Error =
      "open /tekton/results/image-ref: permission denied" ∧
    (GoError.wrap "open /tekton/results/image-ref: " EACCES).Unwrap = some EACCES := by
  decide

/-! ## Marker checks that fail -/

theorem processTags_trace_extends (env : Env) (p : packageImage) (tags : List String) :
    ∀ w : World, ∃ ops, (processTags env p w tags).1.trace = w.trace ++ ops := by
  induction tags with
  | nil => intro w; exact ⟨[], by simp [processTags]⟩
  | cons t rest ih =>
    intro w
    cases hm : markerFound p w t with
    | true =>
      rw [processTags_found env p w t rest hm]
      obtain ⟨ops, h⟩ := ih (w.record (Event.stat (checkedFile p w t)))
      exact ⟨Event.stat (checkedFile p w t) :: ops, by rw [h]; simp [World.record]⟩
    | false =>
      rw [processTags_absent env p w t rest hm]
      cases hp : env.skopeoTag (w.record (Event.stat (checkedFile p w t)))
          p.imageId.ImageStream t with
      | some err => exact ⟨_, by simp [World.record]; rfl⟩
      | none =>
        simp only [WriteJsonArtifact]
        cases hw : env.writeArtifactFile
            ((w.record (Event.stat (checkedFile p w t))).record
              (Event.skopeoTag p.imageId.ImageStream t))
            (env.artifactImageForTag p t) ImageDigestsPath
            (tagArtifactFilename p.imageId.ImageStream t) with
        | some err => exact ⟨_, by simp [World.record]; rfl⟩
        | none =>
          simp only
          obtain ⟨ops, h⟩ := ih
            { ((w.record (Event.stat (checkedFile p w t))).record
                (Event.skopeoTag p.imageId.ImageStream t)).record
                (Event.writeJsonArtifact (env.artifactImageForTag p t) ImageDigestsPath
                  (tagArtifactFilename p.imageId.ImageStream t)) with
              files :=
                ((w.record (Event.stat (checkedFile p w t))).record
                  (Event.skopeoTag p.imageId.ImageStream t)).absolute
                  (ImageDigestsPath.join
                    (GoPath.file (tagArtifactFilename p.imageId.ImageStream t))) ::
                (((w.record (Event.stat (checkedFile p w t))).record
                  (Event.skopeoTag p.imageId.ImageStream t)).record
                  (Event.writeJsonArtifact (env.artifactImageForTag p t) ImageDigestsPath
                    (tagArtifactFilename p.imageId.ImageStream t))).files }
          refine ⟨[Event.stat (checkedFile p w t), Event.skopeoTag p.imageId.ImageStream t,
            Event.writeJsonArtifact (env.artifactImageForTag p t) ImageDigestsPath
              (tagArtifactFilename p.imageId.ImageStream t)] ++ ops, ?_⟩
          rw [h]
          simp [World.record]


/-- C11 as stated fails: with the one tag `v1` and the marker check on `app-v1.json`
failing with `permission denied` (the file is there, its inspection is refused), and not
with `no such file or directory`, `processExtraTags` still pushes `v1`, as it does when the
marker is absent; the run then ends with the `permission denied` of the marker write, where
the run on the absent marker returns nil.  In the same way `skipIfImageArtifactExists`
returns nil, so that the remaining steps run, on a refused check as on an absent
artifact. -/
theorem marker_check_refused_does_the_work :
    (imageTagArtifactExists (sampleImage (GoPath.file ".") ["v1"])
      (refusedWorld [["workspace", "source", ".ods", "artifacts", "image-digests",
        "app-v1.json"]]) "v1").1 =
      some (GoError.wrap "stat .ods/artifacts/image-digests/app-v1.json: " EACCES) ∧
    (imageTagArtifactExists (sampleImage (GoPath.file ".") ["v1"]) (sampleWorld []) "v1").1 =
      some (GoError.wrap "stat .ods/artifacts/image-digests/app-v1.json: " ENOENT) ∧
    pushedTags (processExtraTags refusingEnv (sampleImage (GoPath.file ".") ["v1"],
      refusedWorld [["workspace", "source", ".ods", "artifacts", "image-digests",
        "app-v1.json"]])).1.2.trace = ["v1"] ∧
    pushedTags (processExtraTags refusingEnv
      (sampleImage (GoPath.file ".") ["v1"], sampleWorld [])).1.2.trace = ["v1"] ∧
    (processExtraTags refusingEnv (sampleImage (GoPath.file ".") ["v1"],
      refusedWorld [["workspace", "source", ".ods", "artifacts", "image-digests",
        "app-v1.json"]])).2 =
      some (GoError.wrap "open .ods/artifacts/image-digests/app-v1.json: " EACCES) ∧
    (processExtraTags refusingEnv
      (sampleImage (GoPath.file ".") ["v1"], sampleWorld [])).2 = none ∧
    (sampleArtifactCheck (sampleImage (GoPath.file ".") [])
      (refusedWorld [["workspace", "source", ".ods", "artifacts", "image-digests",
        "app.json"]])).1 =
      some (GoError.wrap "stat .ods/artifacts/image-digests/app.json: " EACCES) ∧
    (skipIfImageArtifactExists sampleArtifactCheck (sampleImage (GoPath.file ".") [],
      refusedWorld [["workspace", "source", ".ods", "artifacts", "image-digests",
        "app.json"]])).2 = none ∧
    (skipIfImageArtifactExists sampleArtifactCheck
      (sampleImage (GoPath.file ".") [], sampleWorld [])).2 = none := by
  decide

/-- C11 amended: the idempotency checks tell a nil result from an error and nothing more.
In `processExtraTags`, when the marker check of a tag returns an error, whichever it is, the
next operation is the push of that tag; when it returns nil, no operation but the check is
done for the tag and the loop goes on with the next tag.  In `skipIfImageArtifactExists`,
when the check returns an error, whichever it is, the step returns nil and the remaining
steps run; when it returns nil, the step returns the skip signal. -/
theorem marker_check_error_means_work (env : Env) (p : packageImage) (w : World) (t : String)
    (rest : List String)
    (check : packageImage → World → Option GoError × World) :
    (p.parsedExtraTags = t :: rest → ∀ e, (imageTagArtifactExists p w t).1 = some e →
      ∃ more, opsSince w (processExtraTags env (p, w)).1.2 =
        Event.stat (checkedFile p w t) :: Event.skopeoTag p.imageId.ImageStream t :: more) ∧
    (p.parsedExtraTags = t :: rest → (imageTagArtifactExists p w t).1 = none →
      processExtraTags env (p, w) =
        ((p, (processTags env p (w.record (Event.stat (checkedFile p w t))) rest).1),
          (processTags env p (w.record (Event.stat (checkedFile p w t))) rest).2)) ∧
    (∀ e, (check p w).1 = some e →
      skipIfImageArtifactExists check (p, w) = ((p, (check p w).2), none)) ∧
    ((check p w).1 = none →
      skipIfImageArtifactExists check (p, w) =
        ((p, (check p w).2), some (GoError.skip "image artifact exists already"))) := by
  refine ⟨?_, ?_, ?_, ?_⟩
  · intro ht e he
    have hm : markerFound p w t = false := by simp [markerFound, he]
    rw [processExtraTags_eq, ht, processTags_absent env p w t rest hm]
    cases hp : env.skopeoTag (w.record (Event.stat (checkedFile p w t)))
        p.imageId.ImageStream t with
    | some err => exact ⟨[], by simp [opsSince, World.record]⟩
    | none =>
      simp only
      cases hw : WriteJsonArtifact env
          ((w.record (Event.stat (checkedFile p w t))).record
            (Event.skopeoTag p.imageId.ImageStream t))
          (env.artifactImageForTag p t) ImageDigestsPath
          (tagArtifactFilename p.imageId.ImageStream t) with
      | mk err w3 =>
        have hw3 : w3.trace = w.trace ++ [Event.stat (checkedFile p w t),
            Event.skopeoTag p.imageId.ImageStream t,
            Event.writeJsonArtifact (env.artifactImageForTag p t) ImageDigestsPath
              (tagArtifactFilename p.imageId.ImageStream t)] := by
          have := congrArg (fun r => r.2.trace) hw
          simp only [WriteJsonArtifact] at this
          rw [← this]
          split <;> simp [World.record]
        cases err with
        | some e1 => exact ⟨_, by simp [opsSince, hw3]; rfl⟩
        | none =>
          simp only
          obtain ⟨ops, h⟩ := processTags_trace_extends env p rest w3
          refine ⟨Event.writeJsonArtifact (env.artifactImageForTag p t) ImageDigestsPath
              (tagArtifactFilename p.imageId.ImageStream t) :: ops, ?_⟩
          simp [opsSince, h, hw3]
  · intro ht he
    have hm : markerFound p w t = true := by simp [markerFound, he]
    rw [processExtraTags_eq, ht, processTags_found env p w t rest hm]
  · intro e he
    simp only [skipIfImageArtifactExists]
    cases hc : check p w with
    | mk err w1 => rw [hc] at he; simp only at he; subst he; rfl
  · intro he
    simp only [skipIfImageArtifactExists]
    cases hc : check p w with
    | mk err w1 => rw [hc] at he; simp only at he; subst he; rfl

/-- Witness for C11 amended: the check of the image artifact `app.json` is refused with
`permission denied`, and `skipIfImageArtifactExists` returns nil. -/
theorem marker_check_error_means_work_witness :
    skipIfImageArtifactExists sampleArtifactCheck (sampleImage (GoPath.file ".") ["v1"],
      refusedWorld [["workspace", "source", ".ods", "artifacts", "image-digests",
        "app.json"]]) =
      ((sampleImage (GoPath.file ".") ["v1"],
        (sampleArtifactCheck (sampleImage (GoPath.file ".") ["v1"])
          (refusedWorld [["workspace", "source", ".ods", "artifacts", "image-digests",
            "app.json"]])).2), none) :=
  (marker_check_error_means_work calmEnv (sampleImage (GoPath.file ".") ["v1"])
    (refusedWorld [["workspace", "source", ".ods", "artifacts", "image-digests", "app.json"]])
    "v1" [] sampleArtifactCheck).2.2.1
    (GoError.wrap "stat .ods/artifacts/image-digests/app.json: " EACCES) (by decide)

/-! ## The result file -/

/-- C12: `imageRef` of an image record is its registry, repository and name joined by `/`,
then `@` and its digest, character for character; the tag (and the `Ref` field) has no
part in it.  `storeResults` performs one operation, the write of exactly this string of the
context's image record to the result file, returns the context it was given, and returns
what the write returned.  For the record of the end-to-end test the string is
`ods-pipeline-registry.kind:5000/ns/app@sha256:abc`. -/
theorem storeResults_writes_image_ref (env : Env) (p : packageImage) (w : World) (i : Image) :
    imageRef i = i.Registry ++ "/" ++ i.Repository ++ "/" ++ i.Name ++ "@" ++ i.Digest ∧
    (imageRef i).data =
      i.Registry.data ++ '/' :: (i.Repository.data ++ '/' :: (i.Name.data ++ '@' :: i.Digest.data)) ∧
    (∀ ref tag, imageRef { i with Ref := ref, Tag := tag } = imageRef i) ∧
    opsSince w (storeResults env (p, w)).1.2 =
      [Event.writeFile env.tektonResultsImageRefFile (imageRef (env.artifactImage p))] ∧
    (storeResults env (p, w)).1.1 = p ∧
    (storeResults env (p, w)).2 =
      env.osWriteFile w env.tektonResultsImageRefFile (imageRef (env.artifactImage p)) ∧
    imageRef { Ref := "", Registry := "ods-pipeline-registry.kind:5000", Repository := "ns",
               Name := "app", Tag := "c0ffee", Digest := "sha256:abc" } =
      "ods-pipeline-registry.kind:5000/ns/app@sha256:abc" := by
  refine ⟨rfl, ?_, fun _ _ => rfl, ?_, rfl, rfl, by decide⟩
  · simp [imageRef, String.data_append]
  · simp [storeResults, opsSince, World.record]

/-! ## Child processes: the outcome of `runCmdInDir` -/

theorem scanLines_err_cases (limit : Nat) (failure : Option GoError) :
    ∀ (input pending : List Byte), LF ∉ pending → pending.length < limit →
      ((scanLines limit failure pending input).2 = failure ∧
        ∀ line ∈ rawLines (pending ++ input), line.length < limit) ∨
      ((scanLines limit failure pending input).2 = some ErrTooLong ∧
        ∃ line ∈ rawLines (pending ++ input), limit ≤ line.length) := by
  intro input
  induction input with
  | nil =>
    intro pending h hlen
    left
    rw [List.append_nil, rawLines_of_no_LF pending h, scanLines]
    refine ⟨rfl, ?_⟩
    intro line hl
    by_cases hp : pending = []
    · simp [hp] at hl
    · simp only [hp, if_false, List.mem_singleton] at hl
      rw [hl]; exact hlen
  | cons b rest ih =>
    intro pending h hlen
    by_cases hb : b = LF
    · subst hb
      rw [scanLines, if_pos rfl, rawLines_LF pending rest h]
      have h0 : ([] : List Byte).length < limit := by simp only [List.length_nil]; omega
      rcases ih [] (by simp) h0 with ⟨h1, h2⟩ | ⟨h1, line, hl, hlong⟩
      · left
        refine ⟨h1, ?_⟩
        intro line hl
        rcases List.mem_cons.mp hl with hl | hl
        · rw [hl]; exact hlen
        · exact h2 line (by simpa using hl)
      · right
        exact ⟨h1, line, List.mem_cons_of_mem _ (by simpa using hl), hlong⟩
    · rw [scanLines, if_neg hb]
      by_cases hfull : limit ≤ pending.length + 1
      · right
        rw [if_pos hfull]
        obtain ⟨piece, hp⟩ := head_mem_rawLines pending rest b h hb
        refine ⟨rfl, _, hp, ?_⟩
        simp only [List.length_append, List.length_cons]
        omega
      · rw [if_neg hfull]
        have hmem : LF ∉ pending ++ [b] := by
          simp only [List.mem_append, List.mem_singleton, not_or]
          exact ⟨h, fun hc => hb hc.symm⟩
        have := ih (pending ++ [b]) hmem (by simp; omega)
        simpa using this

theorem scan_err_none_iff (s : Stream) (w : List Byte) :
    (scan s w).2 = none ↔ drainsCleanly s := by
  have h0 : ([] : List Byte).length < MaxScanTokenSize := by decide
  have hc := scanLines_err_cases MaxScanTokenSize s.failure s.content [] (by simp) h0
  simp only [List.nil_append] at hc
  simp only [scan, drainsCleanly]
  constructor
  · intro h
    rcases hc with ⟨h1, h2⟩ | ⟨h1, _⟩
    · exact ⟨by rw [← h1]; exact h, h2⟩
    · rw [h1] at h; simp at h
  · rintro ⟨hf, hshort⟩
    rcases hc with ⟨h1, _⟩ | ⟨_, line, hl, hlong⟩
    · rw [h1]; exact hf
    · have := hshort line hl; omega

theorem scan_of_clean (s : Stream) (w : List Byte) (h : drainsCleanly s) :
    scan s w = (w ++ drained s, none) := by
  obtain ⟨hf, hshort⟩ := h
  have h0 : ([] : List Byte).length < MaxScanTokenSize := by decide
  have hl := scanLines_eq_lines MaxScanTokenSize s.failure s.content [] (by simp) h0
    (by simpa using hshort)
  simp only [List.nil_append] at hl
  simp only [scan, hl, foldl_Fprintln, streamLines, drained]
  rw [hf]

theorem scanTakes_all (limit : Nat) :
    ∀ (s pending more : List Byte), (scanLines limit none pending (s ++ more)).2 = none →
      scanTakes limit pending s = s.length := by
  intro s
  induction s with
  | nil => intro _ _ _; rfl
  | cons b rest ih =>
    intro pending more h
    rw [List.cons_append, scanLines] at h
    rw [scanTakes]
    by_cases hb : b = LF
    · rw [if_pos hb] at h ⊢
      simp only at h
      rw [ih [] more h, List.length_cons]; omega
    · rw [if_neg hb] at h ⊢
      by_cases hfull : limit ≤ pending.length + 1
      · rw [if_pos hfull] at h; simp at h
      · rw [if_neg hfull] at h ⊢
        rw [ih _ more h, List.length_cons]; omega

theorem scanLines_stop_extends (limit : Nat) :
    ∀ (s pending : List Byte), (scanLines limit none pending s).2 ≠ none →
      ∀ (failure : Option GoError) (more : List Byte),
        scanLines limit failure pending (s ++ more) = scanLines limit none pending s := by
  intro s
  induction s with
  | nil => intro pending h; simp [scanLines] at h
  | cons b rest ih =>
    intro pending h failure more
    rw [scanLines] at h
    rw [List.cons_append, scanLines, scanLines]
    by_cases hb : b = LF
    · rw [if_pos hb] at h ⊢
      rw [if_pos hb]
      simp only at h
      rw [ih [] h failure more]
    · rw [if_neg hb] at h ⊢
      rw [if_neg hb]
      by_cases hfull : limit ≤ pending.length + 1
      · rw [if_pos hfull, if_pos hfull]
      · rw [if_neg hfull] at h ⊢
        rw [if_neg hfull]
        exact ih _ h failure more

theorem scan_stop_extends (handed more : List Byte) (failure : Option GoError) (w : List Byte)
    (h : (scan { content := handed, failure := none } w).2 ≠ none) :
    scan { content := handed ++ more, failure := failure } w =
      scan { content := handed, failure := none } w := by
  simp only [scan] at h ⊢
  rw [scanLines_stop_extends MaxScanTokenSize handed [] h failure more]


theorem runChild_handed (capacity : Nat) :
    ∀ (writes : List (Fd × List Byte)) (out err : List Byte), ∃ mo me,
      out ++ written Fd.stdout writes = (runChild capacity out err writes).stdout ++ mo ∧
      err ++ written Fd.stderr writes = (runChild capacity out err writes).stderr ++ me ∧
      ((runChild capacity out err writes).ended = true → mo = [] ∧ me = []) := by
  intro writes
  induction writes with
  | nil => intro out err; exact ⟨[], [], by simp [written, runChild]⟩
  | cons wr rest ih =>
    intro out err
    obtain ⟨fd, chunk⟩ := wr
    cases fd with
    | stdout =>
      rw [runChild]
      by_cases hfit : unreadAfterScan (out ++ chunk) ≤ capacity
      · rw [if_pos hfit]
        obtain ⟨mo, me, h1, h2, h3⟩ := ih (out ++ chunk) err
        refine ⟨mo, me, ?_, ?_, h3⟩
        · rw [← h1]; simp [written]
        · rw [← h2]; simp [written]
      · rw [if_neg hfit]
        exact ⟨written Fd.stdout rest, written Fd.stderr rest, by simp [written],
          by simp [written], by simp⟩
    | stderr =>
      rw [runChild]
      by_cases hfit : unreadAfterScan (err ++ chunk) ≤ capacity
      · rw [if_pos hfit]
        obtain ⟨mo, me, h1, h2, h3⟩ := ih out (err ++ chunk)
        refine ⟨mo, me, ?_, ?_, h3⟩
        · rw [← h1]; simp [written]
        · rw [← h2]; simp [written]
      · rw [if_neg hfit]
        exact ⟨written Fd.stdout rest, written Fd.stderr rest, by simp [written],
          by simp [written], by simp⟩

theorem runChild_ended_of_clean (capacity : Nat) :
    ∀ (writes : List (Fd × List Byte)) (out err : List Byte),
      (scanLines MaxScanTokenSize none [] (out ++ written Fd.stdout writes)).2 = none →
      (scanLines MaxScanTokenSize none [] (err ++ written Fd.stderr writes)).2 = none →
      runChild capacity out err writes =
        { ended := true, stdout := out ++ written Fd.stdout writes,
          stderr := err ++ written Fd.stderr writes } := by
  intro writes
  induction writes with
  | nil => intro out err _ _; simp [written, runChild]
  | cons wr rest ih =>
    intro out err ho he
    obtain ⟨fd, chunk⟩ := wr
    cases fd with
    | stdout =>
      have ho1 : (scanLines MaxScanTokenSize none []
          ((out ++ chunk) ++ written Fd.stdout rest)).2 = none := by
        simpa [written] using ho
      have he1 : (scanLines MaxScanTokenSize none [] (err ++ written Fd.stderr rest)).2 = none := by
        simpa [written] using he
      have hfit : unreadAfterScan (out ++ chunk) ≤ capacity := by
        rw [unreadAfterScan, scanTakes_all MaxScanTokenSize (out ++ chunk) [] _ ho1]
        omega
      rw [runChild, if_pos hfit, ih (out ++ chunk) err ho1 he1]
      simp [written]
    | stderr =>
      have ho1 : (scanLines MaxScanTokenSize none [] (out ++ written Fd.stdout rest)).2 = none := by
        simpa [written] using ho
      have he1 : (scanLines MaxScanTokenSize none []
          ((err ++ chunk) ++ written Fd.stderr rest)).2 = none := by
        simpa [written] using he
      have hfit : unreadAfterScan (err ++ chunk) ≤ capacity := by
        rw [unreadAfterScan, scanTakes_all MaxScanTokenSize (err ++ chunk) [] _ he1]
        omega
      rw [runChild, if_pos hfit, ih out (err ++ chunk) ho1 he1]
      simp [written]

theorem scanLines_clean_of_drains (s : Stream) (h : drainsCleanly s) :
    (scanLines MaxScanTokenSize none [] s.content).2 = none := by
  have h1 : drainsCleanly { content := s.content, failure := none } := ⟨rfl, h.2⟩
  have := (scan_err_none_iff { content := s.content, failure := none } []).mpr h1
  simpa [scan] using this


theorem collectOutput_sinks (rcStdout rcStderr : Stream) (wStdout wStderr : List Byte) :
    (collectOutput rcStdout rcStderr wStdout wStderr).wStdout = (scan rcStdout wStdout).1 ∧
    (collectOutput rcStdout rcStderr wStdout wStderr).wStderr = (scan rcStderr wStderr).1 := by
  simp only [collectOutput]
  split <;> exact ⟨rfl, rfl⟩

theorem runCmdInDir_of_clean (child : Child) (environ : List String) (exe : String)
    (args env : List String) (dir : String) (outWriter errWriter : List Byte)
    (h1 : child.stderrPipe = none) (h2 : child.stdoutPipe = none) (h3 : child.start = none)
    (ho : drainsCleanly child.stdoutStream) (he : drainsCleanly child.stderrStream) :
    runCmdInDir child environ exe args env dir outWriter errWriter =
      some { calls := [CmdCall.StderrPipe, CmdCall.StdoutPipe,
               CmdCall.Start exe args (environ ++ env) dir, CmdCall.collectOutput, CmdCall.Wait],
             outWriter := outWriter ++ drained child.stdoutStream,
             errWriter := errWriter ++ drained child.stderrStream,
             err := child.wait } := by
  have hrun := runChild_ended_of_clean child.pipeCapacity child.writes [] []
    (by simpa using scanLines_clean_of_drains _ ho)
    (by simpa using scanLines_clean_of_drains _ he)
  simp only [List.nil_append] at hrun
  have so := scan_of_clean child.stdoutStream outWriter ho
  have se := scan_of_clean child.stderrStream errWriter he
  simp only [Child.stdoutStream] at so
  simp only [Child.stderrStream] at se
  simp only [runCmdInDir, h1, h2, h3, hrun, collectOutput, so, se]
  simp [Child.stdoutStream, Child.stderrStream]

theorem runCmdInDir_of_failed_drain (child : Child) (environ : List String) (exe : String)
    (args env : List String) (dir : String) (outWriter errWriter : List Byte) (r : CmdRun)
    (h1 : child.stderrPipe = none) (h2 : child.stdoutPipe = none) (h3 : child.start = none)
    (hn : ¬ (drainsCleanly child.stdoutStream ∧ drainsCleanly child.stderrStream))
    (hr : runCmdInDir child environ exe args env dir outWriter errWriter = some r) :
    r = { calls := [CmdCall.StderrPipe, CmdCall.StdoutPipe,
            CmdCall.Start exe args (environ ++ env) dir, CmdCall.collectOutput],
          outWriter := (scan child.stdoutStream outWriter).1,
          errWriter := (scan child.stderrStream errWriter).1,
          err := some (GoError.wrap "collect output: " (GoError.plain
            ("scan stdout = " ++ fmtS (scan child.stdoutStream outWriter).2 ++
              ", scan stderr = " ++ fmtS (scan child.stderrStream errWriter).2))) } := by
  have hfail : (scan child.stdoutStream outWriter).2 ≠ none ∨
      (scan child.stderrStream errWriter).2 ≠ none := by
    by_contra hc
    simp only [not_or, not_not] at hc
    exact hn ⟨(scan_err_none_iff _ _).mp hc.1, (scan_err_none_iff _ _).mp hc.2⟩
  obtain ⟨mo, me, e1, e2, e3⟩ := runChild_handed child.pipeCapacity child.writes [] []
  simp only [List.nil_append] at e1 e2
  simp only [runCmdInDir, h1, h2, h3] at hr
  generalize runChild child.pipeCapacity [] [] child.writes = P at e1 e2 e3 hr
  by_cases hend : P.ended = true
  · obtain ⟨hmo, hme⟩ := e3 hend
    rw [hmo, List.append_nil] at e1
    rw [hme, List.append_nil] at e2
    rw [if_pos hend, ← e1, ← e2] at hr
    have hc := collectOutput_err child.stdoutStream child.stderrStream outWriter errWriter
    rw [if_pos hfail] at hc
    simp only [Child.stdoutStream, Child.stderrStream] at hc
    simp only [hc] at hr
    simp only [Option.some.injEq] at hr
    rw [← hr]
    simp [collectOutput_sinks, Child.stdoutStream, Child.stderrStream]
  · rw [if_neg hend] at hr
    by_cases hboth : (scan { content := P.stdout, failure := none } outWriter).2 ≠ none ∧
        (scan { content := P.stderr, failure := none } errWriter).2 ≠ none
    · rw [if_pos hboth] at hr
      have xo := scan_stop_extends _ mo child.stdoutEnd outWriter hboth.1
      have xe := scan_stop_extends _ me child.stderrEnd errWriter hboth.2
      rw [← e1] at xo
      rw [← e2] at xe
      have hc := collectOutput_err { content := P.stdout, failure := none }
        { content := P.stderr, failure := none } outWriter errWriter
      rw [if_pos (Or.inl hboth.1)] at hc
      simp only [hc] at hr
      simp only [Option.some.injEq] at hr
      rw [← hr]
      simp [collectOutput_sinks, Child.stdoutStream, Child.stderrStream, xo, xe]
    · rw [if_neg hboth] at hr
      exact absurd hr (by simp)

theorem runCmdInDir_returns_of_ended (child : Child) (environ : List String) (exe : String)
    (args env : List String) (dir : String) (outWriter errWriter : List Byte)
    (hend : (runChild child.pipeCapacity [] [] child.writes).ended = true) :
    runCmdInDir child environ exe args env dir outWriter errWriter ≠ none := by
  simp only [runCmdInDir]
  cases child.stderrPipe with
  | some e => simp
  | none =>
    cases child.stdoutPipe with
    | some e => simp
    | none =>
      cases child.start with
      | some e => simp
      | none =>
        simp only [hend, if_true]
        split <;> simp


theorem scanTakes_too_long (limit : Nat) (b : Byte) (hb : b ≠ LF) (rest : List Byte) :
    ∀ (n : Nat) (pending : List Byte), pending.length < limit → limit ≤ pending.length + n →
      scanTakes limit pending (List.replicate n b ++ rest) = limit - pending.length := by
  intro n
  induction n with
  | zero => intro pending h1 h2; omega
  | succ k ih =>
    intro pending h1 h2
    rw [List.replicate_succ, List.cons_append, scanTakes, if_neg hb]
    by_cases hfull : limit ≤ pending.length + 1
    · rw [if_pos hfull]; omega
    · rw [if_neg hfull, ih (pending ++ [b]) (by simp; omega) (by simp; omega)]
      simp only [List.length_append, List.length_singleton]
      omega

theorem runCmdInDir_of_blocked (child : Child) (environ : List String) (exe : String)
    (args env : List String) (dir : String) (outWriter errWriter : List Byte)
    (h1 : child.stderrPipe = none) (h2 : child.stdoutPipe = none) (h3 : child.start = none)
    (P : ChildProgress) (hP : runChild child.pipeCapacity [] [] child.writes = P)
    (hend : P.ended = false)
    (hq : ¬ ((scan { content := P.stdout, failure := none } outWriter).2 ≠ none ∧
      (scan { content := P.stderr, failure := none } errWriter).2 ≠ none)) :
    runCmdInDir child environ exe args env dir outWriter errWriter = none := by
  simp only [runCmdInDir, h1, h2, h3, hP, hend]
  rw [if_neg (by simp), if_neg hq]

/-- C8 as stated fails: a child whose pipes connect and that starts writes one line of
131073 bytes to its standard output.  The drain of that stream fails (`scan` stops with
`bufio.ErrTooLong` after 65536 bytes), the 65538 bytes left do not fit into the pipe, the
child blocks in its write and never ends, the drain of the standard error waits for ever
for the end of its stream, and `runCmdInDir` never returns: there is no streaming error. -/
theorem runCmdInDir_long_line_never_returns :
    (scan { content := List.replicate 131073 97 ++ [LF], failure := none } []).2 =
      some ErrTooLong ∧
    runCmdInDir (sampleChild [(Fd.stdout, List.replicate 131073 97 ++ [LF])] none)
      [] "buildah" ["bud"] [] "" [] [] = none := by
  have hlong := scanLines_too_long MaxScanTokenSize none 97 (by decide) [LF] 131073 []
    (by decide) (by decide)
  have htakes := scanTakes_too_long MaxScanTokenSize 97 (by decide) [LF] 131073 []
    (by decide) (by decide)
  have hun : ¬ unreadAfterScan (List.replicate 131073 97 ++ [LF]) ≤ 65536 := by
    rw [unreadAfterScan, htakes, List.length_append, List.length_replicate]
    decide
  have hquiet : ¬ ((scan { content := List.replicate 131073 97 ++ [LF], failure := none } []).2
      ≠ none ∧ (scan { content := [], failure := none } []).2 ≠ none) := by
    intro h; exact h.2 rfl
  have hchild : runChild 65536 [] [] [(Fd.stdout, List.replicate 131073 97 ++ [LF])] =
      { ended := false, stdout := List.replicate 131073 97 ++ [LF], stderr := [] } := by
    rw [runChild, List.nil_append, if_neg hun]
  constructor
  · simp only [scan, hlong]
  · exact runCmdInDir_of_blocked _ [] "buildah" ["bud"] [] "" [] [] rfl rfl rfl _ hchild rfl
      hquiet


/-- C8 amended: `runCmdInDir` returns nil exactly when both pipes connect, the process
starts, both streams end without a read error with every line shorter than 65536 bytes, and
`Wait` returns nil.  With pipes connected, the process started and both streams draining
cleanly the call returns: every line of each stream is in its sink, `Wait` is the last call,
made after `collectOutput` has returned, and the result is the result of `Wait` itself, so
an exit status error comes back as it is and is not of the `collect output: ` kind.  When a
pipe or the start fails the call returns an error without `Wait`.  When a drain fails, the
call returns if the child still ends, and whenever it returns the result is the error
`collect output: ` around the message naming both drain results, without `Wait`.  `Wait` is
only ever called after both streams were read to their end and written out. -/
theorem runCmdInDir_outcome_when_it_returns (child : Child) (environ : List String)
    (exe : String) (args env : List String) (dir : String) (outWriter errWriter : List Byte) :
    ((∃ r, runCmdInDir child environ exe args env dir outWriter errWriter = some r ∧
        r.err = none) ↔
      child.stderrPipe = none ∧ child.stdoutPipe = none ∧ child.start = none ∧
      drainsCleanly child.stdoutStream ∧ drainsCleanly child.stderrStream ∧
      child.wait = none) ∧
    (child.stderrPipe = none → child.stdoutPipe = none → child.start = none →
      drainsCleanly child.stdoutStream → drainsCleanly child.stderrStream →
      runCmdInDir child environ exe args env dir outWriter errWriter =
        some { calls := [CmdCall.StderrPipe, CmdCall.StdoutPipe,
                 CmdCall.Start exe args (environ ++ env) dir, CmdCall.collectOutput,
                 CmdCall.Wait],
               outWriter := outWriter ++ drained child.stdoutStream,
               errWriter := errWriter ++ drained child.stderrStream,
               err := child.wait } ∧
      ∀ code inner, child.wait = some (GoError.exit code) →
        child.wait ≠ some (GoError.wrap "collect output: " inner)) ∧
    (child.stderrPipe ≠ none ∨ child.stdoutPipe ≠ none ∨ child.start ≠ none →
      ∃ r, runCmdInDir child environ exe args env dir outWriter errWriter = some r ∧
        r.err ≠ none ∧ CmdCall.Wait ∉ r.calls) ∧
    (child.stderrPipe = none → child.stdoutPipe = none → child.start = none →
      ¬ (drainsCleanly child.stdoutStream ∧ drainsCleanly child.stderrStream) →
      ((runChild child.pipeCapacity [] [] child.writes).ended = true →
        runCmdInDir child environ exe args env dir outWriter errWriter ≠ none) ∧
      ∀ r, runCmdInDir child environ exe args env dir outWriter errWriter = some r →
        r.err = some (GoError.wrap "collect output: " (GoError.plain
          ("scan stdout = " ++ fmtS (scan child.stdoutStream outWriter).2 ++
            ", scan stderr = " ++ fmtS (scan child.stderrStream errWriter).2))) ∧
        CmdCall.Wait ∉ r.calls) ∧
    (∀ r, runCmdInDir child environ exe args env dir outWriter errWriter = some r →
      CmdCall.Wait ∈ r.calls →
      drainsCleanly child.stdoutStream ∧ drainsCleanly child.stderrStream ∧
      r.calls = [CmdCall.StderrPipe, CmdCall.StdoutPipe,
        CmdCall.Start exe args (environ ++ env) dir, CmdCall.collectOutput, CmdCall.Wait] ∧
      r.outWriter = outWriter ++ drained child.stdoutStream ∧
      r.errWriter = errWriter ++ drained child.stderrStream) := by
  -- the three ways the call is settled once the child is started
  have hclean := runCmdInDir_of_clean child environ exe args env dir outWriter errWriter
  have hfailed := fun r => runCmdInDir_of_failed_drain child environ exe args env dir
    outWriter errWriter r
  have hended := runCmdInDir_returns_of_ended child environ exe args env dir outWriter errWriter
  -- a pipe or the start fails
  have hearly : child.stderrPipe ≠ none ∨ child.stdoutPipe ≠ none ∨ child.start ≠ none →
      ∃ r, runCmdInDir child environ exe args env dir outWriter errWriter = some r ∧
        r.err ≠ none ∧ CmdCall.Wait ∉ r.calls := by
    intro h
    simp only [runCmdInDir]
    cases h1 : child.stderrPipe with
    | some e => exact ⟨_, rfl, by simp, by simp⟩
    | none =>
      cases h2 : child.stdoutPipe with
      | some e => exact ⟨_, rfl, by simp, by simp⟩
      | none =>
        cases h3 : child.start with
        | some e => exact ⟨_, rfl, by simp, by simp⟩
        | none => simp [h1, h2, h3] at h
  refine ⟨?_, ?_, hearly, ?_, ?_⟩
  · constructor
    · rintro ⟨r, hr, herr⟩
      by_cases hp : child.stderrPipe ≠ none ∨ child.stdoutPipe ≠ none ∨ child.start ≠ none
      · obtain ⟨r1, hr1, he1, _⟩ := hearly hp
        rw [hr] at hr1
        exact absurd (Option.some.inj hr1 ▸ herr) he1
      · simp only [not_or, not_not] at hp
        obtain ⟨h1, h2, h3⟩ := hp
        by_cases hc : drainsCleanly child.stdoutStream ∧ drainsCleanly child.stderrStream
        · have := hclean h1 h2 h3 hc.1 hc.2
          rw [hr] at this
          have hw : r.err = child.wait := by rw [Option.some.inj this]
          exact ⟨h1, h2, h3, hc.1, hc.2, by rw [← hw]; exact herr⟩
        · have := hfailed r h1 h2 h3 hc hr
          rw [this] at herr
          simp at herr
    · rintro ⟨h1, h2, h3, ho, he, hw⟩
      exact ⟨_, hclean h1 h2 h3 ho he, hw⟩
  · intro h1 h2 h3 ho he
    refine ⟨hclean h1 h2 h3 ho he, ?_⟩
    intro code inner hw
    rw [hw]
    simp
  · intro h1 h2 h3 hc
    refine ⟨hended, ?_⟩
    intro r hr
    have := hfailed r h1 h2 h3 hc hr
    rw [this]
    simp
  · intro r hr hwait
    by_cases hp : child.stderrPipe ≠ none ∨ child.stdoutPipe ≠ none ∨ child.start ≠ none
    · obtain ⟨r1, hr1, _, hno⟩ := hearly hp
      rw [hr] at hr1
      exact absurd (Option.some.inj hr1 ▸ hwait) hno
    · simp only [not_or, not_not] at hp
      obtain ⟨h1, h2, h3⟩ := hp
      by_cases hc : drainsCleanly child.stdoutStream ∧ drainsCleanly child.stderrStream
      · have := hclean h1 h2 h3 hc.1 hc.2
        rw [hr] at this
        have hr2 := Option.some.inj this
        refine ⟨hc.1, hc.2, ?_, ?_, ?_⟩ <;> rw [hr2]
      · have := hfailed r h1 h2 h3 hc hr
        rw [this] at hwait
        simp at hwait

/-- Witness for C8 amended: a child that writes a line to each stream and exits with
status 2. -/
theorem runCmdInDir_outcome_when_it_returns_witness :
    runCmdInDir (sampleChild [(Fd.stdout, asciiBytes "built\n"),
        (Fd.stderr, asciiBytes "warning\n")] (some (GoError.exit 2)))
      [] "buildah" ["bud"] [] "" [] [] =
      some { calls := [CmdCall.StderrPipe, CmdCall.StdoutPipe,
               CmdCall.Start "buildah" ["bud"] [] "", CmdCall.collectOutput, CmdCall.Wait],
             outWriter := asciiBytes "built\n",
             errWriter := asciiBytes "warning\n",
             err := some (GoError.exit 2) } :=
  ((runCmdInDir_outcome_when_it_returns (sampleChild [(Fd.stdout, asciiBytes "built\n"),
        (Fd.stderr, asciiBytes "warning\n")] (some (GoError.exit 2)))
      [] "buildah" ["bud"] [] "" [] []).2.1 rfl rfl rfl (by decide) (by decide)).1

end OdsImage
